import Mathlib

/-!
Verification of the Nayax Home Assistant integration
(`custom_components/nayax`): a shallow embedding of the coordinator's
transaction-deduplication, discovery, migration, cleanup and aggregation
logic (`coordinator.py`) and of the API client's response normalization
(`api.py`), together with theorems settling the specified behaviour.

Modelling conventions:
* JSON scalar values returned by the vendor API are modelled by `JVal`;
  sale / machine records are string-keyed association lists (`JObj`).
  The coordinator's field extraction only ever reads scalar fields.
* Python truthiness, `or`-chaining, `==` and `str()`/`float()` coercions
  on scalars are modelled explicitly (`truthy`, `pyOr`, `pyEq`, `pyStr`,
  `pyFloat`).
* Python `dict`s are modelled as insertion-ordered association lists
  (`alookup`, `upsert`); updating an existing key replaces the value in
  place, a new key is appended.  Scalar dict keys are identified up to
  Python `==`/`hash` equivalence via `pyKey` (so `True` and `1` collide,
  as they do in a Python `dict`).
* `datetime` instants are integer microseconds since the Unix epoch
  (UTC) — `datetime` has exactly microsecond precision — and
  timezone-aware comparison of instants is integer comparison.  Local
  time is modelled as a civil datetime plus a fixed UTC offset in
  minutes (a fixed-offset zone; DST transitions are out of scope of the
  properties proved here).
-/

namespace Nayax

/-- JSON scalar values as they appear in API record fields. -/
inductive JVal where
  | null
  | bool (b : Bool)
  | num (q : ℚ)
  | str (s : String)
deriving DecidableEq

/-- Association-list lookup (the model of Python dict indexing). -/
def alookup {κ α : Type} [DecidableEq κ] : List (κ × α) → κ → Option α
  | [], _ => none
  | kv :: t, k => if k = kv.1 then some kv.2 else alookup t k

/-- A JSON object with scalar fields: the shape of one sale / machine record. -/
abbrev JObj := List (String × JVal)

/-- Python truthiness of a scalar: `None`, `False`, `0` and `""` are falsy. -/
def truthy : JVal → Bool
  | .null => false
  | .bool b => b
  | .num q => decide (q ≠ 0)
  | .str s => decide (s ≠ "")

/-- Python `a or b` on scalars: `a` when truthy, otherwise `b`. -/
def pyOr (a b : JVal) : JVal := if truthy a then a else b

/-- `d.get(k)`: the value stored under `k`, `None` when the key is absent. -/
def jget (o : JObj) (k : String) : JVal := (alookup o k).getD .null

/-- `d.get(k, default)`: the value stored under `k`, `default` when absent. -/
def jgetD (o : JObj) (k : String) (d : JVal) : JVal := (alookup o k).getD d

/-- The key type of a Python dict with scalar keys: a scalar up to Python
`==`/`hash` equivalence. -/
inductive PyKey where
  | pnum (q : ℚ)
  | pstr (s : String)
  | pnone
deriving DecidableEq

/-- The equivalence class of a scalar under Python `==` (and `hash`, for
dict keys): booleans are identified with their numeric value `0`/`1`;
numbers, strings and `None` are otherwise disjoint. -/
def pyKey : JVal → PyKey
  | .null => .pnone
  | .bool b => .pnum (if b then 1 else 0)
  | .num q => .pnum q
  | .str s => .pstr s

/-- Python `==` on scalars. -/
def pyEq (a b : JVal) : Bool := decide (pyKey a = pyKey b)

/-- The dict key of a Python string. -/
def skey (s : String) : PyKey := pyKey (.str s)

/-- Python `str()` on a scalar.  The API's id fields are strings or JSON
integers; integer-valued numbers render in plain decimal as in Python. -/
def pyStr : JVal → String
  | .null => "None"
  | .bool b => if b then "True" else "False"
  | .str s => s
  | .num q => if q.den = 1 then toString q.num else toString q

/-- Digit list to its decimal value. -/
def natOfDigits (ds : List Char) : ℕ :=
  ds.foldl (fun n c => 10 * n + (c.toNat - 48)) 0

/-- `float()` applied to a decimal string literal: optional sign, digits with
an optional fractional part and an optional decimal exponent, surrounding
whitespace stripped (Python's `inf`/`nan` literals are not representable
here and do not arise from the API). -/
def parsePyFloat (s : String) : Option ℚ :=
  let cs := (s.toList.dropWhile Char.isWhitespace).reverse.dropWhile Char.isWhitespace |>.reverse
  let (sign, cs) : ℚ × List Char :=
    match cs with
    | '+' :: rest => (1, rest)
    | '-' :: rest => (-1, rest)
    | rest => (1, rest)
  let (mant, expPart) := cs.span (fun c => c ≠ 'e' ∧ c ≠ 'E')
  let mantVal : Option ℚ :=
    match mant.span (· ≠ '.') with
    | (ip, []) => if ip ≠ [] ∧ ip.all Char.isDigit then some (natOfDigits ip) else none
    | (ip, _dot :: fp) =>
      if (ip ≠ [] ∨ fp ≠ []) ∧ ip.all Char.isDigit ∧ fp.all Char.isDigit then
        some ((natOfDigits ip : ℚ) + (natOfDigits fp : ℚ) / (10 ^ fp.length))
      else none
  match mantVal, expPart with
  | none, _ => none
  | some m, [] => some (sign * m)
  | some m, _e :: rest =>
    let (esign, ds) : ℤ × List Char :=
      match rest with
      | '+' :: r => (1, r)
      | '-' :: r => (-1, r)
      | r => (1, r)
    if ds ≠ [] ∧ ds.all Char.isDigit then
      some (sign * m * (10 : ℚ) ^ (esign * (natOfDigits ds : ℤ)))
    else none

/-- Python `float()` on a scalar (`none` models a raised
`ValueError`/`TypeError`): booleans convert to `0.0`/`1.0`, strings are
parsed as decimal literals. -/
def pyFloat : JVal → Option ℚ
  | .null => none
  | .bool b => some (if b then 1 else 0)
  | .num q => some q
  | .str s => parsePyFloat s

/-- Insert-or-update on an insertion-ordered association list, with Python
dict semantics: an existing key keeps its position, a new key is appended. -/
def upsert {κ α : Type} [DecidableEq κ] (h : List (κ × α)) (k : κ) (v : α) :
    List (κ × α) :=
  if (alookup h k).isSome then h.map (fun kv => if kv.1 = k then (k, v) else kv)
  else h ++ [(k, v)]

theorem alookup_append {κ α : Type} [DecidableEq κ] (h h' : List (κ × α)) (k : κ) :
    alookup (h ++ h') k = ((alookup h k).map some).getD (alookup h' k) := by
  induction h with
  | nil => simp [alookup]
  | cons kv t ih =>
    by_cases hk : k = kv.1 <;> simp [alookup, hk, ih]

theorem alookup_replaceAll {κ α : Type} [DecidableEq κ] (h : List (κ × α)) (k k' : κ) (v : α) :
    alookup (h.map (fun kv => if kv.1 = k then (k, v) else kv)) k' =
      if k' = k then (alookup h k).map (fun _ => v) else alookup h k' := by
  induction h with
  | nil => by_cases hk : k' = k <;> simp [alookup, hk]
  | cons kv t ih =>
    by_cases hkv : kv.1 = k
    · by_cases hk : k' = k
      · simp [alookup, hkv, hk, ih]
      · simp [alookup, hkv, hk, ih, hkv ▸ hk]
    · by_cases hk : k' = kv.1
      · have hk2 : ¬k' = k := fun hcon => hkv (hcon ▸ hk).symm
        simp [alookup, hkv, hk, hk2]
      · have hk3 : ¬k = kv.1 := fun hcon => hkv hcon.symm
        simp [alookup, hkv, hk, hk3, ih]

theorem alookup_isSome_iff {κ α : Type} [DecidableEq κ] (h : List (κ × α)) (k : κ) :
    (alookup h k).isSome ↔ k ∈ h.map Prod.fst := by
  induction h with
  | nil => simp [alookup]
  | cons kv t ih =>
    by_cases hk : k = kv.1 <;> simp [alookup, hk, ih]

/-- Lookup after `upsert`: the written key reads back the new value, all
other keys are unaffected. -/
theorem alookup_upsert {κ α : Type} [DecidableEq κ] (h : List (κ × α)) (k k' : κ) (v : α) :
    alookup (upsert h k v) k' = if k' = k then some v else alookup h k' := by
  unfold upsert
  split
  · rw [alookup_replaceAll]
    rename_i hs
    rcases hh : alookup h k with _ | w
    · rw [hh] at hs; simp at hs
    · by_cases hk : k' = k <;> simp [hh, hk]
  · rw [alookup_append]
    by_cases hk : k' = k
    · subst hk
      rcases hh : alookup h k' with _ | w
      · simp [alookup]
      · rename_i hs
        rw [hh] at hs; simp at hs
    · rcases hh : alookup h k' with _ | w <;> simp [alookup, hk]

theorem keys_replaceAll {κ α : Type} [DecidableEq κ] (h : List (κ × α)) (k : κ) (v : α) :
    (h.map (fun kv => if kv.1 = k then (k, v) else kv)).map Prod.fst = h.map Prod.fst := by
  induction h with
  | nil => rfl
  | cons kv t ih =>
    by_cases hk : kv.1 = k <;> simp [hk, ih]

/-- `upsert` of a present key preserves the key sequence. -/
theorem keys_upsert_present {κ α : Type} [DecidableEq κ] (h : List (κ × α)) (k : κ) (v : α)
    (hmem : (alookup h k).isSome) : (upsert h k v).map Prod.fst = h.map Prod.fst := by
  unfold upsert
  rw [if_pos hmem]
  exact keys_replaceAll h k v

/-- Two association lists with the same (duplicate-free) key sequence and
equal lookups are equal. -/
theorem assoc_ext {κ α : Type} [DecidableEq κ] (l₁ l₂ : List (κ × α))
    (hkeys : l₁.map Prod.fst = l₂.map Prod.fst) (hnd : (l₁.map Prod.fst).Nodup)
    (hlook : ∀ k, alookup l₁ k = alookup l₂ k) : l₁ = l₂ := by
  induction l₁ generalizing l₂ with
  | nil => cases l₂ <;> simp_all
  | cons kv t ih =>
    cases l₂ with
    | nil => simp_all
    | cons kv' t' =>
      have hk : kv.1 = kv'.1 := by simpa using congrArg (List.headD · kv.1) hkeys
      have hv : kv.2 = kv'.2 := by
        have := hlook kv.1
        simpa [alookup, hk] using this
      have hkt : t.map Prod.fst = t'.map Prod.fst := by
        simpa using congrArg List.tail hkeys
      have hnd2 : (kv.1 :: t.map Prod.fst).Nodup := by
        have hx : (kv :: t).map Prod.fst = kv.1 :: t.map Prod.fst := rfl
        rwa [hx] at hnd
      obtain ⟨hnotin, hnd'⟩ := List.nodup_cons.mp hnd2
      have htl : ∀ k, alookup t k = alookup t' k := by
        intro k
        by_cases hkk : k = kv.1
        · have h₁ : alookup t k = none := by
            rcases hh : alookup t k with _ | w
            · rfl
            · have hm := (alookup_isSome_iff t k).mp (by simp [hh])
              rw [hkk] at hm
              exact absurd hm hnotin
          have h₂ : alookup t' k = none := by
            rcases hh : alookup t' k with _ | w
            · rfl
            · have hm := (alookup_isSome_iff t' k).mp (by simp [hh])
              rw [← hkt, hkk] at hm
              exact absurd hm hnotin
          rw [h₁, h₂]
        · have := hlook k
          have hkk' : ¬k = kv'.1 := hk ▸ hkk
          simpa [alookup, hkk, hkk'] using this
      have hteq : t = t' := ih t' hkt hnd' htl
      cases kv; cases kv'
      simp_all

/-! ### Calendar arithmetic

`datetime` instants are seconds since the Unix epoch.  Dates are converted
to day numbers with the standard civil-calendar algorithms (proleptic
Gregorian), matching `datetime.date.toordinal` up to the epoch shift. -/

/-- Gregorian leap year. -/
def isLeap (y : ℤ) : Bool := y % 4 = 0 ∧ (y % 100 ≠ 0 ∨ y % 400 = 0)

/-- Days in a month of a given year. -/
def daysInMonth (y : ℤ) (m : ℕ) : ℕ :=
  if m = 2 then (if isLeap y then 29 else 28)
  else if m = 4 ∨ m = 6 ∨ m = 9 ∨ m = 11 then 30
  else 31

/-- Day number of a civil date, with 1970-01-01 as day 0. -/
def epochDays (y : ℤ) (m d : ℕ) : ℤ :=
  let y' : ℤ := if m ≤ 2 then y - 1 else y
  let era : ℤ := Int.fdiv y' 400
  let yoe : ℕ := (y' - era * 400).toNat
  let mp : ℕ := (m + 9) % 12
  let doy : ℕ := (153 * mp + 2) / 5 + (d - 1)
  let doe : ℕ := yoe * 365 + yoe / 4 - yoe / 100 + doy
  era * 146097 + (doe : ℤ) - 719468

/-- Civil date of a day number (inverse of `epochDays`). -/
def civilFromDays (z : ℤ) : ℤ × ℕ × ℕ :=
  let z' : ℤ := z + 719468
  let era : ℤ := Int.fdiv z' 146097
  let doe : ℕ := (z' - era * 146097).toNat
  let yoe : ℕ := (doe - doe / 1460 + doe / 36524 - doe / 146096) / 365
  let doy : ℕ := doe - (365 * yoe + yoe / 4 - yoe / 100)
  let mp : ℕ := (5 * doy + 2) / 153
  let d : ℕ := doy - (153 * mp + 2) / 5 + 1
  let m : ℕ := if mp < 10 then mp + 3 else mp - 9
  (if mp < 10 then (yoe : ℤ) + era * 400 else (yoe : ℤ) + era * 400 + 1, m, d)

/-- Microseconds since the epoch of a UTC civil datetime.  `datetime`
instants have exactly microsecond precision, so integer microseconds
represent them faithfully and aware-datetime comparison is integer
comparison. -/
def dtMicros (y : ℤ) (m d h mi s micro : ℕ) : ℤ :=
  epochDays y m d * 86400000000 + ((h * 3600 + mi * 60 + s) * 1000000 + micro : ℕ)

/-- One day in microseconds (`timedelta(days=1)`). -/
def dayUs : ℤ := 86400000000

/-! ### Timestamp parsing (`coordinator._parse_timestamp`)

The source first substitutes every `"Z"` with `"+00:00"` and calls
`datetime.fromisoformat`, defaulting to UTC when no offset is present; on
failure it retries the original string against four `strptime` patterns
(`%Y-%m-%dT%H:%M:%S[.%f]`, `%Y-%m-%d %H:%M:%S[.%f]`), each assumed UTC.
`fromisoformat` is modelled on the dashed/colon-separated ISO shapes with
`T` or space as the date/time separator and an optional `±HH:MM` offset —
the forms the substitution step can produce from the vendor API. -/

/-- Exactly `n` digits; returns the value and the rest of the input. -/
def parseFixedDigits (n : ℕ) (cs : List Char) : Option (ℕ × List Char) :=
  let ds := cs.take n
  if ds.length = n ∧ ds.all Char.isDigit then some (natOfDigits ds, cs.drop n) else none

/-- Between `lo` and `hi` digits (greedy); returns value, digit count, rest. -/
def parseSomeDigits (lo hi : ℕ) (cs : List Char) : Option (ℕ × ℕ × List Char) :=
  let ds := (cs.takeWhile Char.isDigit).take hi
  if lo ≤ ds.length then some (natOfDigits ds, ds.length, cs.drop ds.length) else none

/-- `[ ":" MM [ ":" SS [ "." ffffff ] ] ]` of an ISO time; returns
`(minute, second, microseconds, rest)`. -/
def parseIsoMinSec (cs : List Char) : Option (ℕ × ℕ × ℕ × List Char) :=
  match cs with
  | ':' :: cs =>
    match parseFixedDigits 2 cs with
    | none => none
    | some (mi, cs) =>
      if mi ≥ 60 then none
      else
        match cs with
        | ':' :: cs =>
          match parseFixedDigits 2 cs with
          | none => none
          | some (s, cs) =>
            if s ≥ 60 then none
            else
              match cs with
              | '.' :: cs =>
                match parseSomeDigits 1 6 cs with
                | none => none
                | some (f, n, cs) => some (mi, s, f * 10 ^ (6 - n), cs)
              | cs => some (mi, s, 0, cs)
        | cs => some (mi, 0, 0, cs)
  | cs => some (0, 0, 0, cs)

/-- `±HH:MM` UTC offset in minutes, required to end the input. -/
def parseIsoOffset (cs : List Char) : Option ℤ :=
  match cs with
  | [] => some 0
  | c :: cs =>
    if c = '+' ∨ c = '-' then
      match parseFixedDigits 2 cs with
      | none => none
      | some (oh, cs) =>
        if oh ≥ 24 then none
        else
          match cs with
          | ':' :: cs =>
            match parseFixedDigits 2 cs with
            | none => none
            | some (om, cs) =>
              if om ≥ 60 ∨ cs ≠ [] then none
              else some ((if c = '-' then -1 else 1) * ((oh : ℤ) * 60 + om))
          | _ => none
    else none

/-- `datetime.fromisoformat` on `YYYY-MM-DD[{T, }HH[:MM[:SS[.f]]][±HH:MM]]`,
returning the instant in microseconds since the epoch (UTC assumed when no
offset is given, as the caller does). -/
def fromIso (s : String) : Option ℤ :=
  let cs := s.toList
  match parseFixedDigits 4 cs with
  | none => none
  | some (y, cs) =>
    if y = 0 then none
    else
      match cs with
      | '-' :: cs =>
        match parseFixedDigits 2 cs with
        | none => none
        | some (mo, cs) =>
          if mo = 0 ∨ mo > 12 then none
          else
            match cs with
            | '-' :: cs =>
              match parseFixedDigits 2 cs with
              | none => none
              | some (d, cs) =>
                if d = 0 ∨ d > daysInMonth y mo then none
                else
                  match cs with
                  | [] => some (dtMicros y mo d 0 0 0 0)
                  | sep :: cs =>
                    if sep = 'T' ∨ sep = ' ' then
                      match parseFixedDigits 2 cs with
                      | none => none
                      | some (h, cs) =>
                        if h ≥ 24 then none
                        else
                          match parseIsoMinSec cs with
                          | none => none
                          | some (mi, sec, micro, cs) =>
                            match parseIsoOffset cs with
                            | none => none
                            | some off =>
                              some (dtMicros y mo d h mi sec micro - off * 60000000)
                    else none
            | _ => none
      | _ => none

/-- One `strptime` fallback pattern `%Y-%m-%d{sep}%H:%M:%S[.%f]`: 1-4 digit
year, 1-2 digit month/day/hour/minute/second, full-string match, date
validity checked as `datetime` does; the result is assumed UTC. -/
def parseFallback (sep : Char) (withFrac : Bool) (s : String) : Option ℤ :=
  match parseSomeDigits 1 4 s.toList with
  | none => none
  | some (y, _, cs) =>
    if y = 0 then none
    else
      match cs with
      | '-' :: cs =>
        match parseSomeDigits 1 2 cs with
        | none => none
        | some (mo, _, cs) =>
          if mo = 0 ∨ mo > 12 then none
          else
            match cs with
            | '-' :: cs =>
              match parseSomeDigits 1 2 cs with
              | none => none
              | some (d, _, cs) =>
                if d = 0 ∨ d > daysInMonth y mo then none
                else
                  match cs with
                  | c :: cs =>
                    if c = sep then
                      match parseSomeDigits 1 2 cs with
                      | none => none
                      | some (h, _, cs) =>
                        if h ≥ 24 then none
                        else
                          match cs with
                          | ':' :: cs =>
                            match parseSomeDigits 1 2 cs with
                            | none => none
                            | some (mi, _, cs) =>
                              if mi ≥ 60 then none
                              else
                                match cs with
                                | ':' :: cs =>
                                  match parseSomeDigits 1 2 cs with
                                  | none => none
                                  | some (sec, _, cs) =>
                                    if sec ≥ 60 then none
                                    else
                                      if withFrac then
                                        match cs with
                                        | '.' :: cs =>
                                          match parseSomeDigits 1 6 cs with
                                          | none => none
                                          | some (f, n, cs) =>
                                            if cs = [] then
                                              some (dtMicros y mo d h mi sec (f * 10 ^ (6 - n)))
                                            else none
                                        | _ => none
                                      else
                                        if cs = [] then some (dtMicros y mo d h mi sec 0)
                                        else none
                                | _ => none
                          | _ => none
                    else none
                  | [] => none
            | _ => none
      | _ => none

/-- `"Z"` → `"+00:00"` substitution (`str.replace` replaces every
occurrence; the pattern is a single character, so this is char-wise). -/
def replaceZ (s : String) : String :=
  String.mk (s.toList.foldr
    (fun c acc => if c = 'Z' then '+' :: '0' :: '0' :: ':' :: '0' :: '0' :: acc else c :: acc) [])

/-- `coordinator._parse_timestamp` on a string: empty string is rejected,
then ISO parsing of the `Z`-substituted string, then the four `strptime`
fallbacks against the original string, in source order. -/
def parse_timestamp (s : String) : Option ℤ :=
  if s = "" then none
  else
    match fromIso (replaceZ s) with
    | some v => some v
    | none =>
      match parseFallback 'T' true s with
      | some v => some v
      | none =>
        match parseFallback 'T' false s with
        | some v => some v
        | none =>
          match parseFallback ' ' true s with
          | some v => some v
          | none => parseFallback ' ' false s

/-- `_parse_timestamp` applied to a stored scalar `timestamp` value: the
leading `if not timestamp_str` guard returns `None` on every falsy value;
a truthy string is parsed (parse failures return `None`, `ValueError` is
caught); a truthy non-string reaches `timestamp_str.replace(...)` and
raises `AttributeError`, which nothing in the coordinator catches —
modelled as `Except.error ()`. -/
def parseTimestampV : JVal → Except Unit (Option ℤ)
  | .str s => .ok (parse_timestamp s)
  | v => if truthy v then .error () else .ok none

/-- A stored timestamp value on which `_parse_timestamp` does not raise: a
string, or a falsy value (rejected by the leading guard).  Exactly on
these, `parseTimestampV` is `.ok`. -/
def tsNoRaise : JVal → Bool
  | .str _ => true
  | v => !truthy v

theorem parseTimestampV_error_iff (v : JVal) :
    parseTimestampV v = .error () ↔ tsNoRaise v = false := by
  cases v with
  | str s => simp [parseTimestampV, tsNoRaise]
  | null => simp [parseTimestampV, tsNoRaise, truthy]
  | bool b => cases b <;> simp [parseTimestampV, tsNoRaise, truthy]
  | num q =>
    by_cases hq : q = 0 <;> simp [parseTimestampV, tsNoRaise, truthy, hq]

/-! ### API client response normalization (`api.py`) -/

/-- A JSON value as decoded from an API response body. -/
inductive Resp where
  | arr (xs : List JObj)
  | obj (fields : List (String × Resp))
  | scalar (v : JVal)

/-- `NayaxApiClient.get_machines` response handling: a bare list is returned
as is; an object yields its `machines` or `data` field (key presence, not
truthiness, is tested); any other shape logs a warning and yields the empty
list — never an exception. -/
def get_machines (response : Resp) : Resp :=
  match response with
  | .arr xs => .arr xs
  | .obj fields =>
    match alookup fields "machines" with
    | some v => v
    | none =>
      match alookup fields "data" with
      | some v => v
      | none => .arr []
  | .scalar _ => .arr []

/-- `NayaxApiClient.get_last_sales` response handling: a bare list is
returned as is; an object yields its `transactions`, `sales` or `data`
field, tried in that order; any other shape logs a warning and yields the
empty list — never an exception. -/
def get_last_sales (response : Resp) : Resp :=
  match response with
  | .arr xs => .arr xs
  | .obj fields =>
    match alookup fields "transactions" with
    | some v => v
    | none =>
      match alookup fields "sales" with
      | some v => v
      | none =>
        match alookup fields "data" with
        | some v => v
        | none => .arr []
  | .scalar _ => .arr []

/-! ### Coordinator state (`coordinator.py`) -/

/-- One machine's transaction history: `transaction_id → record`, an
insertion-ordered dict keyed by Python scalar keys. -/
abbrev Hist := List (PyKey × JObj)

/-- `_transaction_history`: `machine_id → (transaction_id → record)`.
Machine ids are strings (built with `str()` during discovery, and strings
after the JSON round-trip of persisted state). -/
abbrev HistAll := List (String × Hist)

/-- One entry of `_machines` as built by `_discover_machines`: the dict
`{"id": machine_id, "name": machine_name, "raw": machine}`.  The `name`
value is whatever the alias chain produced (`machine_info.get("name", …)`
always finds the key on these records). -/
structure MachineInfo where
  id : String
  name : JVal
  raw : JObj
deriving DecidableEq

/-- Machine id extraction in `_discover_machines`:
`str(machine.get("MachineID") or machine.get("MachineId") or
machine.get("machineId") or machine.get("id") or "")`. -/
def machineIdOf (machine : JObj) : String :=
  pyStr (pyOr (jget machine "MachineID") (pyOr (jget machine "MachineId")
    (pyOr (jget machine "machineId") (pyOr (jget machine "id") (.str "")))))

/-- Machine name extraction in `_discover_machines`. -/
def machineNameOf (machine : JObj) (machine_id : String) : JVal :=
  pyOr (jget machine "MachineName") (pyOr (jget machine "machineName")
    (pyOr (jget machine "name") (.str ("Nayax Machine " ++ machine_id))))

/-- `_discover_machines`' roster construction: entries without a resolvable
id are skipped with a warning; the rest populate a fresh dict. -/
def discover_machines (machines_data : List JObj) : List (String × MachineInfo) :=
  machines_data.foldl (fun new_machines machine =>
    let machine_id := machineIdOf machine
    if machine_id = "" then new_machines
    else upsert new_machines machine_id ⟨machine_id, machineNameOf machine machine_id, machine⟩) []

/-- The coordinator fields involved in the discovery decision:
`_machines` and `_last_machine_discovery` (an event-loop time in seconds). -/
structure CoordState where
  machines : List (String × MachineInfo)
  lastDiscovery : ℚ

/-- The discovery step of `_async_update_data`: discovery runs when the
roster is empty or stale; `_discover_machines` swallows `NayaxApiError`
(modelled by `fetchResult = none`) leaving `_machines` untouched, and
`_last_machine_discovery = current_time` is assigned unconditionally after
it returns. -/
def update_data_discovery (st : CoordState) (current_time : ℚ) (interval : ℚ)
    (fetchResult : Option (List JObj)) : CoordState :=
  if st.machines.isEmpty ∨ current_time - st.lastDiscovery > interval then
    match fetchResult with
    | none => { machines := st.machines, lastDiscovery := current_time }
    | some machines_data => { machines := discover_machines machines_data, lastDiscovery := current_time }
  else st

/-! ### Sale ingestion (`_poll_machine_sales` and helpers) -/

/-- Transaction id extraction, as written identically in
`_poll_machine_sales` and `_extract_sale_data`:
`str(sale.get("TransactionID") or sale.get("transactionId") or
sale.get("id") or "")`. -/
def txIdOf (sale : JObj) : String :=
  pyStr (pyOr (jget sale "TransactionID") (pyOr (jget sale "transactionId")
    (pyOr (jget sale "id") (.str ""))))

/-- `_get_settlement_value`: the `SettlementValue` / `settlementValue` /
`amount` alias chain, `None` passed through, then `float()` with
`ValueError`/`TypeError` mapped to `None` with a warning. -/
def get_settlement_value (sale : JObj) : Option ℚ :=
  let value := pyOr (jget sale "SettlementValue")
    (pyOr (jget sale "settlementValue") (jget sale "amount"))
  match value with
  | .null => none
  | v => pyFloat v

/-- The timestamp alias chain of `_extract_sale_data`. -/
def timestampField (sale : JObj) : JVal :=
  pyOr (jget sale "AuthorizationDateTimeGMT") (pyOr (jget sale "authorizationDateTimeGmt")
    (pyOr (jget sale "AuthorizationTimeGMT") (pyOr (jget sale "authorizationTimeGmt")
      (pyOr (jget sale "MachineAuthorizationTime") (pyOr (jget sale "machineAuthorizationTime")
        (pyOr (jget sale "SettlementDateTimeGMT") (pyOr (jget sale "settlementDateTimeGmt")
          (pyOr (jget sale "Timestamp") (pyOr (jget sale "timestamp")
            (pyOr (jget sale "DateTime") (pyOr (jget sale "dateTime") (.str ""))))))))))))

/-- `_extract_sale_data`: the normalized record stored in history and fired
as the event payload.  `machine_info.get("name", …)` always finds `"name"`
on discovery-built machine records, so it is `machine_info.name` here. -/
def extract_sale_data (machine_id : String) (machine_info : MachineInfo) (sale : JObj) : JObj :=
  [("machine_id", .str machine_id),
   ("machine_name", machine_info.name),
   ("transaction_id", .str (txIdOf sale)),
   ("amount", .num ((get_settlement_value sale).getD 0)),
   ("currency", pyOr (jget sale "Currency") (pyOr (jget sale "currency")
     (pyOr (jget sale "CurrencyCode") (.str "EUR")))),
   ("product_name", pyOr (jget sale "ProductName") (pyOr (jget sale "productName")
     (pyOr (jget sale "Product") (pyOr (jget sale "product") (.str "Unknown Product"))))),
   ("payment_method", pyOr (jget sale "PaymentMethod") (pyOr (jget sale "paymentMethod")
     (pyOr (jget sale "PaymentType") (pyOr (jget sale "paymentType") (.str "Unknown"))))),
   ("timestamp", timestampField sale),
   ("site_name", pyOr (jget sale "SiteName") (pyOr (jget sale "siteName") .null))]

/-- `_transaction_changed`: compares only `amount`, `product_name` and
`timestamp` between the stored and the freshly extracted record, with
Python `!=`. -/
def transaction_changed (existing new_data : JObj) : Bool :=
  ["amount", "product_name", "timestamp"].any
    (fun field => !pyEq (jget existing field) (jget new_data field))

/-- One machine's in-flight poll state: its history dict plus the
`nayax_sale` payloads fired so far this cycle (`_fire_sale_event`). -/
structure PollState where
  history : Hist
  events : List JObj
deriving DecidableEq

/-- The body of `_poll_machine_sales`' transaction loop for one sale
record: skip on missing/non-positive settlement value; skip (with a
warning) on empty transaction id; store and fire an event on a first
sighting; on an existing id overwrite only if `_transaction_changed`,
firing nothing. -/
def processSale (machine_id : String) (machine_info : MachineInfo)
    (st : PollState) (sale : JObj) : PollState :=
  match get_settlement_value sale with
  | none => st
  | some settlement_value =>
    if settlement_value ≤ 0 then st
    else
      let transaction_id := txIdOf sale
      if transaction_id = "" then st
      else
        let sale_data := extract_sale_data machine_id machine_info sale
        match alookup st.history (skey transaction_id) with
        | none =>
          { history := upsert st.history (skey transaction_id) sale_data,
            events := st.events ++ [sale_data] }
        | some existing =>
          if transaction_changed existing sale_data then
            { st with history := upsert st.history (skey transaction_id) sale_data }
          else st

/-- `_poll_machine_sales` over one machine's sales response: the
transaction loop, starting from the machine's current history with no
events fired yet. -/
def poll_machine_sales (machine_id : String) (machine_info : MachineInfo)
    (history : Hist) (sales : List JObj) : PollState :=
  sales.foldl (processSale machine_id machine_info) ⟨history, []⟩

/-! ### Persistence migration (`_migrate_old_data`) -/

/-- A value of the legacy `last_sales_data` mapping: machine id to its
single stored record, or any non-dict junk (skipped by migration). -/
inductive LegacyVal where
  | dict (o : JObj)
  | nondict
deriving DecidableEq

/-- One iteration of `_migrate_old_data`'s loop: skip non-dict values and
falsy `transaction_id`s, skip when the machine already stores that
transaction id, otherwise initialize the machine's history if needed and
insert the legacy record under its transaction id. -/
def migrateStep (acc : HistAll) (mkv : String × LegacyVal) : HistAll :=
  match mkv.2 with
  | .nondict => acc
  | .dict sale_data =>
    let transaction_id := jget sale_data "transaction_id"
    if truthy transaction_id = false then acc
    else
      match alookup acc mkv.1 with
      | some machine_txs =>
        if (alookup machine_txs (pyKey transaction_id)).isSome then acc
        else upsert acc mkv.1 (upsert machine_txs (pyKey transaction_id) sale_data)
      | none => upsert acc mkv.1 (upsert [] (pyKey transaction_id) sale_data)

/-- `_migrate_old_data`: each legacy record with a truthy `transaction_id`
is inserted into the history map unless an entry with the same machine id
and transaction id already exists. -/
def migrate_old_data (hist : HistAll) (old_sales_data : List (String × LegacyVal)) : HistAll :=
  old_sales_data.foldl migrateStep hist

/-! ### History cleanup (`_cleanup_old_transactions`) -/

/-- `datetime(now.year - 1, 1, 1, tzinfo=timezone.utc)`: the cleanup
cutoff, in microseconds since the epoch. -/
def cutoffDate (nowYear : ℤ) : ℤ := dtMicros (nowYear - 1) 1 1 0 0 0 0

/-- The retention test of `_cleanup_old_transactions` for one record that
the scan did not raise on: keep when the `timestamp` field is falsy or
does not parse, remove when the parsed instant is before the cutoff.  (The
`.error` branch is unreachable for records that passed the raise scan; its
value is irrelevant.) -/
def cleanupKeep (cutoff : ℤ) (kv : PyKey × JObj) : Bool :=
  let timestamp_str := jgetD kv.2 "timestamp" (.str "")
  if truthy timestamp_str = false then true
  else
    match parseTimestampV timestamp_str with
    | .ok none => true
    | .ok (some tx_dt) => if tx_dt < cutoff then false else true
    | .error _ => true

/-- One machine's cleanup scan: the loop walks every record building
`to_remove` and only then deletes, so it raises (returning `none`) exactly
when some record holds a truthy non-string timestamp — with no deletions
applied to this machine — and otherwise filters by `cleanupKeep`. -/
def cleanupScan (cutoff : ℤ) (txs : Hist) : Option Hist :=
  if txs.any (fun kv => !tsNoRaise (jgetD kv.2 "timestamp" (.str ""))) then none
  else some (txs.filter (cleanupKeep cutoff))

/-- Result of `_cleanup_old_transactions`: either a completed cleanup, or
an uncaught `AttributeError` carrying the in-memory history at the moment
of the raise — machines scanned before the raising one keep their applied
removals, the raising machine and the rest are untouched. -/
inductive CleanupResult where
  | ok (h : HistAll)
  | raised (h : HistAll)
deriving DecidableEq

/-- `_cleanup_old_transactions` at a current UTC year, machine by machine
in insertion order.  A truthy non-string timestamp makes the scan raise
`AttributeError` (only `ValueError` is caught inside `_parse_timestamp`),
aborting the walk with earlier machines already mutated in place. -/
def cleanup_old_transactions (hist : HistAll) (nowYear : ℤ) : CleanupResult :=
  match hist with
  | [] => .ok []
  | (machine_id, machine_txs) :: rest =>
    match cleanupScan (cutoffDate nowYear) machine_txs with
    | none => .raised ((machine_id, machine_txs) :: rest)
    | some txs' =>
      match cleanup_old_transactions rest nowYear with
      | .ok rest' => .ok ((machine_id, txs') :: rest')
      | .raised rest' => .raised ((machine_id, txs') :: rest')

/-! ### Read accessors (`get_last_sale`) -/

/-- The loop body of `get_last_sale`: `(latest_tx, latest_dt)` updated by
one record — skip when the timestamp does not parse, keep the record with
the strictly greater parsed timestamp (the first of equals wins), and
propagate the `AttributeError` of a truthy non-string timestamp. -/
def lastSaleStep (acc : Option JObj × Option ℤ) (tx_data : JObj) :
    Except Unit (Option JObj × Option ℤ) :=
  match parseTimestampV (jgetD tx_data "timestamp" (.str "")) with
  | .error e => .error e
  | .ok none => .ok acc
  | .ok (some tx_dt) =>
    match acc.2 with
    | none => .ok (some tx_data, some tx_dt)
    | some latest_dt =>
      if tx_dt > latest_dt then .ok (some tx_data, some tx_dt) else .ok acc

/-- `get_last_sale`'s loop over the machine's records, stopping at the
first raising record. -/
def lastSaleFold : List JObj → Option JObj × Option ℤ →
    Except Unit (Option JObj × Option ℤ)
  | [], acc => .ok acc
  | tx_data :: rest, acc =>
    match lastSaleStep acc tx_data with
    | .error e => .error e
    | .ok acc' => lastSaleFold rest acc'

/-- `get_last_sale`: the stored record with the greatest parsed timestamp,
scanning the machine's records in insertion order; unparseable string
timestamps are skipped; `None` without history or parseable entries; an
uncaught `AttributeError` on the first truthy non-string timestamp. -/
def get_last_sale (hist : HistAll) (machine_id : String) :
    Except Unit (Option JObj) :=
  match alookup hist machine_id with
  | none => .ok none
  | some machine_txs =>
    if machine_txs.isEmpty then .ok none
    else
      match lastSaleFold (machine_txs.map Prod.snd)
          ((none : Option JObj), (none : Option ℤ)) with
      | .error e => .error e
      | .ok acc => .ok acc.1

/-! ### Period boundaries (`_get_period_date_range`)

Local civil datetimes are modelled with a fixed UTC offset in minutes;
`dt_util.as_utc` on such a zone subtracts the offset.  `timedelta`
arithmetic on an aware datetime shifts its civil fields, which for a
fixed-offset zone coincides with shifting the instant. -/

/-- A local civil datetime (`dt_util.now()` in the configured timezone). -/
structure CivilDT where
  year : ℤ
  month : ℕ
  day : ℕ
  hour : ℕ
  minute : ℕ
  second : ℕ
  microsecond : ℕ
deriving DecidableEq

/-- The naive instant of a civil datetime read as UTC. -/
def naiveMicros (dt : CivilDT) : ℤ :=
  dtMicros dt.year dt.month dt.day dt.hour dt.minute dt.second dt.microsecond

/-- `dt_util.as_utc` for a fixed-offset local zone. -/
def as_utc (offsetMin : ℤ) (dt : CivilDT) : ℤ := naiveMicros dt - offsetMin * 60000000

/-- Python `date.weekday()`: Monday = 0 … Sunday = 6. -/
def weekdayOf (dt : CivilDT) : ℤ := (epochDays dt.year dt.month dt.day + 3).emod 7

/-- `dt ± timedelta(days=k)`: shift the civil date, keeping the time of day. -/
def shiftDays (dt : CivilDT) (k : ℤ) : CivilDT :=
  let c := civilFromDays (epochDays dt.year dt.month dt.day + k)
  { dt with year := c.1, month := c.2.1, day := c.2.2 }

/-- `dt_util.start_of_local_day()`: today's local midnight. -/
def startOfDay (dt : CivilDT) : CivilDT :=
  { dt with hour := 0, minute := 0, second := 0, microsecond := 0 }

/-- `DEFAULT_FIRST_DAY_OF_WEEK` from `const.py`: Monday. -/
def DEFAULT_FIRST_DAY_OF_WEEK : ℤ := 0

/-- `_get_period_date_range`: all period boundaries, computed in the local
civil calendar and converted to UTC instants; `None` for an unknown
period name. -/
def get_period_date_range (now_local : CivilDT) (offsetMin : ℤ) (first_dow : ℤ)
    (period : String) : Option (ℤ × ℤ) :=
  let today_start_local := startOfDay now_local
  let today_start := as_utc offsetMin today_start_local
  let tomorrow_start := today_start + dayUs
  let yesterday_start := today_start - dayUs
  let yesterday_end := today_start
  let days_since_week_start := (weekdayOf now_local - first_dow).emod 7
  let this_week_start_local := shiftDays today_start_local (-days_since_week_start)
  let this_week_start := as_utc offsetMin this_week_start_local
  let last_week_start := this_week_start - 7 * dayUs
  let last_week_end := this_week_start
  let this_month_start_local : CivilDT := ⟨now_local.year, now_local.month, 1, 0, 0, 0, 0⟩
  let this_month_start := as_utc offsetMin this_month_start_local
  let last_month_start_local : CivilDT :=
    if now_local.month = 1 then ⟨now_local.year - 1, 12, 1, 0, 0, 0, 0⟩
    else ⟨now_local.year, now_local.month - 1, 1, 0, 0, 0, 0⟩
  let last_month_start := as_utc offsetMin last_month_start_local
  let last_month_end := this_month_start
  let this_year_start_local : CivilDT := ⟨now_local.year, 1, 1, 0, 0, 0, 0⟩
  let this_year_start := as_utc offsetMin this_year_start_local
  let last_year_start_local : CivilDT := ⟨now_local.year - 1, 1, 1, 0, 0, 0, 0⟩
  let last_year_start := as_utc offsetMin last_year_start_local
  let last_year_end := this_year_start
  let six_months_ago_local := shiftDays now_local (-180)
  let six_months_start_local : CivilDT :=
    ⟨six_months_ago_local.year, six_months_ago_local.month, 1, 0, 0, 0, 0⟩
  let six_months_start := as_utc offsetMin six_months_start_local
  match period with
  | "today" => some (today_start, tomorrow_start)
  | "yesterday" => some (yesterday_start, yesterday_end)
  | "this_week" => some (this_week_start, tomorrow_start)
  | "this_month" => some (this_month_start, tomorrow_start)
  | "this_year" => some (this_year_start, tomorrow_start)
  | "last_week" => some (last_week_start, last_week_end)
  | "last_month" => some (last_month_start, last_month_end)
  | "last_year" => some (last_year_start, last_year_end)
  | "6_months" => some (six_months_start, tomorrow_start)
  | _ => none

/-! ### Supporting lemmas -/

/-- Removing a key from a record (used to state that a falsy value under a
key behaves as if the key were absent). -/
def eraseKey (o : JObj) (k : String) : JObj := o.filter (fun kv => kv.1 ≠ k)

theorem alookup_eraseKey (o : JObj) (k k' : String) :
    alookup (eraseKey o k) k' = if k' = k then none else alookup o k' := by
  induction o with
  | nil => by_cases h : k' = k <;> simp [eraseKey, alookup, h]
  | cons kv t ih =>
    by_cases hk : kv.1 = k
    · by_cases h : k' = k <;> simp_all [eraseKey, alookup, List.filter]
    · by_cases h : k' = kv.1
      · have : ¬k' = k := fun hc => hk ((h.symm.trans hc) ▸ rfl)
        simp_all [eraseKey, alookup, List.filter]
      · simp_all [eraseKey, alookup, List.filter]

theorem jget_eraseKey (o : JObj) (k k' : String) :
    jget (eraseKey o k) k' = if k' = k then .null else jget o k' := by
  by_cases h : k' = k <;> simp [jget, alookup_eraseKey, h]

theorem jget_of_alookup (o : JObj) (k : String) (v : JVal) (h : alookup o k = some v) :
    jget o k = v := by simp [jget, h]

theorem pyOr_falsy (v w : JVal) (h : truthy v = false) : pyOr v w = w := by
  simp [pyOr, h]

/-! ### Claims -/

/-- C2: a sale record whose settlement value — extracted through the
`SettlementValue` / `settlementValue` / `amount` alias chain — is absent,
non-numeric, or at most zero is skipped by the transaction loop of
`_poll_machine_sales`: it is never stored in the history and no event is
fired for it. -/
theorem claim_C2 (machine_id : String) (machine_info : MachineInfo) (st : PollState)
    (sale : JObj)
    (h : get_settlement_value sale = none ∨
      ∃ v, get_settlement_value sale = some v ∧ v ≤ 0) :
    processSale machine_id machine_info st sale = st := by
  rcases h with h | ⟨v, hv, hle⟩
  · simp [processSale, h]
  · simp [processSale, hv, hle]

/-- Witness for C2 at a concrete non-numeric settlement value: the record
is dropped, leaving history and events untouched. -/
theorem claim_C2_witness :
    processSale "M1" ⟨"M1", .str "Machine 1", []⟩ ⟨[], []⟩
      [("SettlementValue", .str "abc"), ("TransactionID", .str "T1")] = ⟨[], []⟩ :=
  claim_C2 "M1" ⟨"M1", .str "Machine 1", []⟩ ⟨[], []⟩
    [("SettlementValue", .str "abc"), ("TransactionID", .str "T1")] (Or.inl (by decide))

/-- C3 counterexample: with a non-empty roster whose discovery is stale
(`current_time - _last_machine_discovery > interval`), a failed discovery
fetch still updates `_last_machine_discovery` to the current time —
`_async_update_data` assigns it unconditionally after `_discover_machines`
returns, and `_discover_machines` swallows the error.  The claim's "the
last-discovery timestamp is left unchanged" is therefore false. -/
theorem claim_C3_counterexample :
    (update_data_discovery ⟨[("1", ⟨"1", .str "M", []⟩)], 0⟩ 400 300 none).lastDiscovery ≠ 0 := by
  norm_num [update_data_discovery]

/-- C3 (amended): when the discovery fetch fails, the previous roster
`_machines` is left unchanged, but the last-discovery timestamp is set to
the current time; hence with a non-empty roster discovery is reattempted
only after the full discovery interval elapses again — only an empty
roster forces a retry on the very next poll cycle. -/
theorem claim_C3 (st : CoordState) (current_time interval : ℚ)
    (htrig : st.machines.isEmpty = true ∨ current_time - st.lastDiscovery > interval) :
    (update_data_discovery st current_time interval none).machines = st.machines ∧
    (update_data_discovery st current_time interval none).lastDiscovery = current_time := by
  unfold update_data_discovery
  rw [if_pos (by simpa using htrig)]
  exact ⟨rfl, rfl⟩

/-- Witness for C3 (amended) on an empty roster at time 5: the roster stays
empty and the timestamp becomes 5. -/
theorem claim_C3_witness :
    (update_data_discovery ⟨[], 0⟩ 5 300 none).machines = [] ∧
    (update_data_discovery ⟨[], 0⟩ 5 300 none).lastDiscovery = 5 :=
  claim_C3 ⟨[], 0⟩ 5 300 (Or.inl rfl)

/-- C7: for every local civil instant, UTC offset and first-day-of-week
setting, the `this_week`, `this_month` and `this_year` periods of
`_get_period_date_range` all share the upper bound "start of tomorrow
local, converted to UTC"; and at the fixed instant 2024-03-14T10:00:00
with offset 0 (local = UTC) and first day of week Monday
(`DEFAULT_FIRST_DAY_OF_WEEK`), the `this_week` interval runs from local
midnight 2024-03-11 (converted to UTC, the epoch instant
1710115200000000 µs) up to the start of 2024-03-15. -/
theorem claim_C7 :
    (∀ (now_local : CivilDT) (offsetMin first_dow : ℤ),
      (get_period_date_range now_local offsetMin first_dow "this_week").map Prod.snd
        = some (as_utc offsetMin (startOfDay now_local) + dayUs) ∧
      (get_period_date_range now_local offsetMin first_dow "this_month").map Prod.snd
        = some (as_utc offsetMin (startOfDay now_local) + dayUs) ∧
      (get_period_date_range now_local offsetMin first_dow "this_year").map Prod.snd
        = some (as_utc offsetMin (startOfDay now_local) + dayUs)) ∧
    get_period_date_range ⟨2024, 3, 14, 10, 0, 0, 0⟩ 0 DEFAULT_FIRST_DAY_OF_WEEK "this_week"
      = some (as_utc 0 ⟨2024, 3, 11, 0, 0, 0, 0⟩, as_utc 0 ⟨2024, 3, 15, 0, 0, 0, 0⟩) ∧
    as_utc 0 ⟨2024, 3, 11, 0, 0, 0, 0⟩ = 1710115200000000 := by
  refine ⟨fun now_local offsetMin first_dow => ⟨rfl, rfl, rfl⟩, by decide, by decide⟩

/-- C9 counterexample: an object response carrying only a `transactions`
field is, by the claim's case split, "every other response shape" (it is
not a bare list and holds neither `sales` nor `data`), so the claim
requires the empty list — but `get_last_sales` returns the value of the
`transactions` field. -/
theorem claim_C9_counterexample :
    get_last_sales (.obj [("transactions", .arr [[("id", .str "T1")]])])
      ≠ .arr [] := by
  simp [get_last_sales, alookup]

/-- C9 (amended): `get_last_sales` returns the response itself when it is a
bare list; when the response is an object it returns the value of the
first present field among `transactions`, `sales`, `data` — one more
accepted field than the claim states, and unlike `get_machines` the
`machines` field is not consulted; for every other shape it returns the
empty list with a warning and never raises. -/
theorem claim_C9 :
    (∀ xs, get_last_sales (.arr xs) = .arr xs) ∧
    (∀ fields v, alookup fields "transactions" = some v →
      get_last_sales (.obj fields) = v) ∧
    (∀ fields v, alookup fields "transactions" = none →
      alookup fields "sales" = some v → get_last_sales (.obj fields) = v) ∧
    (∀ fields v, alookup fields "transactions" = none → alookup fields "sales" = none →
      alookup fields "data" = some v → get_last_sales (.obj fields) = v) ∧
    (∀ fields, alookup fields "transactions" = none → alookup fields "sales" = none →
      alookup fields "data" = none → get_last_sales (.obj fields) = .arr []) ∧
    (∀ v, get_last_sales (.scalar v) = .arr []) := by
  refine ⟨fun xs => rfl, ?_, ?_, ?_, ?_, fun v => rfl⟩
  · intro fields v h
    simp [get_last_sales, h]
  · intro fields v h1 h2
    simp [get_last_sales, h1, h2]
  · intro fields v h1 h2 h3
    simp [get_last_sales, h1, h2, h3]
  · intro fields h1 h2 h3
    simp [get_last_sales, h1, h2, h3]

/-- Witness for C9 (amended): a `sales` field is accepted when
`transactions` is absent. -/
theorem claim_C9_witness :
    get_last_sales (.obj [("sales", .arr [[("id", .str "T7")]])])
      = .arr [[("id", .str "T7")]] :=
  claim_C9.2.2.1 [("sales", .arr [[("id", .str "T7")]])] (.arr [[("id", .str "T7")]])
    rfl rfl

/-- C10: in every field-alias extraction, a key that is present but holds a
falsy value (`0`, `""`, `None`, `False`) behaves exactly as if the key were
absent, so the next alias in the chain is consulted — stated here as
invariance under erasing the falsy first-priority key, for settlement
value, transaction id, machine id, currency, product name, payment method
and timestamp; and, concretely, a sale with `SettlementValue` 0 but
`amount` 3 has settlement value 3 and is stored with one event fired. -/
theorem claim_C10 :
    (∀ sale v, alookup sale "SettlementValue" = some v → truthy v = false →
      get_settlement_value (eraseKey sale "SettlementValue") = get_settlement_value sale) ∧
    (∀ sale v, alookup sale "TransactionID" = some v → truthy v = false →
      txIdOf (eraseKey sale "TransactionID") = txIdOf sale) ∧
    (∀ machine v, alookup machine "MachineID" = some v → truthy v = false →
      machineIdOf (eraseKey machine "MachineID") = machineIdOf machine) ∧
    (∀ mid mi sale v, alookup sale "Currency" = some v → truthy v = false →
      extract_sale_data mid mi (eraseKey sale "Currency") = extract_sale_data mid mi sale) ∧
    (∀ mid mi sale v, alookup sale "ProductName" = some v → truthy v = false →
      extract_sale_data mid mi (eraseKey sale "ProductName") = extract_sale_data mid mi sale) ∧
    (∀ mid mi sale v, alookup sale "PaymentMethod" = some v → truthy v = false →
      extract_sale_data mid mi (eraseKey sale "PaymentMethod") = extract_sale_data mid mi sale) ∧
    (∀ mid mi sale v, alookup sale "AuthorizationDateTimeGMT" = some v → truthy v = false →
      extract_sale_data mid mi (eraseKey sale "AuthorizationDateTimeGMT")
        = extract_sale_data mid mi sale) ∧
    (get_settlement_value [("SettlementValue", .num 0), ("amount", .num 3),
        ("TransactionID", .str "T1")] = some 3 ∧
      poll_machine_sales "M" ⟨"M", .str "Machine", []⟩ []
          [[("SettlementValue", .num 0), ("amount", .num 3), ("TransactionID", .str "T1")]]
        = ⟨[(skey "T1", extract_sale_data "M" ⟨"M", .str "Machine", []⟩
              [("SettlementValue", .num 0), ("amount", .num 3), ("TransactionID", .str "T1")])],
           [extract_sale_data "M" ⟨"M", .str "Machine", []⟩
              [("SettlementValue", .num 0), ("amount", .num 3), ("TransactionID", .str "T1")]]⟩) := by
  refine ⟨?_, ?_, ?_, ?_, ?_, ?_, ?_, by decide, by decide⟩
  · intro sale v h hf
    have h1 : jget sale "SettlementValue" = v := jget_of_alookup _ _ _ h
    have h2 : ∀ w, pyOr v w = w := fun w => pyOr_falsy v w hf
    have h3 : ∀ w, pyOr .null w = w := fun w => pyOr_falsy .null w rfl
    simp [get_settlement_value, jget_eraseKey, h1, h2, h3]
  · intro sale v h hf
    have h1 : jget sale "TransactionID" = v := jget_of_alookup _ _ _ h
    have h2 : ∀ w, pyOr v w = w := fun w => pyOr_falsy v w hf
    have h3 : ∀ w, pyOr .null w = w := fun w => pyOr_falsy .null w rfl
    simp [txIdOf, jget_eraseKey, h1, h2, h3]
  · intro machine v h hf
    have h1 : jget machine "MachineID" = v := jget_of_alookup _ _ _ h
    have h2 : ∀ w, pyOr v w = w := fun w => pyOr_falsy v w hf
    have h3 : ∀ w, pyOr .null w = w := fun w => pyOr_falsy .null w rfl
    simp [machineIdOf, jget_eraseKey, h1, h2, h3]
  · intro mid mi sale v h hf
    have h1 : jget sale "Currency" = v := jget_of_alookup _ _ _ h
    have h2 : ∀ w, pyOr v w = w := fun w => pyOr_falsy v w hf
    have h3 : ∀ w, pyOr .null w = w := fun w => pyOr_falsy .null w rfl
    simp [extract_sale_data, txIdOf, get_settlement_value, timestampField,
      jget_eraseKey, h1, h2, h3]
  · intro mid mi sale v h hf
    have h1 : jget sale "ProductName" = v := jget_of_alookup _ _ _ h
    have h2 : ∀ w, pyOr v w = w := fun w => pyOr_falsy v w hf
    have h3 : ∀ w, pyOr .null w = w := fun w => pyOr_falsy .null w rfl
    simp [extract_sale_data, txIdOf, get_settlement_value, timestampField,
      jget_eraseKey, h1, h2, h3]
  · intro mid mi sale v h hf
    have h1 : jget sale "PaymentMethod" = v := jget_of_alookup _ _ _ h
    have h2 : ∀ w, pyOr v w = w := fun w => pyOr_falsy v w hf
    have h3 : ∀ w, pyOr .null w = w := fun w => pyOr_falsy .null w rfl
    simp [extract_sale_data, txIdOf, get_settlement_value, timestampField,
      jget_eraseKey, h1, h2, h3]
  · intro mid mi sale v h hf
    have h1 : jget sale "AuthorizationDateTimeGMT" = v := jget_of_alookup _ _ _ h
    have h2 : ∀ w, pyOr v w = w := fun w => pyOr_falsy v w hf
    have h3 : ∀ w, pyOr .null w = w := fun w => pyOr_falsy .null w rfl
    simp [extract_sale_data, txIdOf, get_settlement_value, timestampField,
      jget_eraseKey, h1, h2, h3]

/-- Witness for C10: erasing a `SettlementValue` that holds 0 leaves the
settlement extraction unchanged on a concrete record. -/
theorem claim_C10_witness :
    get_settlement_value (eraseKey [("SettlementValue", .num 0), ("amount", .num 3)]
        "SettlementValue")
      = get_settlement_value [("SettlementValue", .num 0), ("amount", .num 3)] :=
  claim_C10.1 [("SettlementValue", .num 0), ("amount", .num 3)] (.num 0) rfl (by decide)

theorem transaction_changed_iff (e n : JObj) :
    transaction_changed e n = true ↔
      (pyEq (jget e "amount") (jget n "amount") = false ∨
       pyEq (jget e "product_name") (jget n "product_name") = false ∨
       pyEq (jget e "timestamp") (jget n "timestamp") = false) := by
  simp [transaction_changed]

/-- C1: in the transaction loop of `_poll_machine_sales`, a processed sale
record (positive settlement value, non-empty transaction id) whose id is
new to the machine's history is stored and fires exactly one sale event;
a record whose id already exists fires no event, and overwrites the stored
record exactly when `amount`, `product_name` or `timestamp` differs from
the stored copy (no other field is compared). -/
theorem claim_C1 (machine_id : String) (machine_info : MachineInfo) (st : PollState)
    (sale : JObj) (v : ℚ)
    (hsv : get_settlement_value sale = some v) (hv : 0 < v) (hid : txIdOf sale ≠ "") :
    (alookup st.history (skey (txIdOf sale)) = none →
      processSale machine_id machine_info st sale =
        ⟨upsert st.history (skey (txIdOf sale)) (extract_sale_data machine_id machine_info sale),
         st.events ++ [extract_sale_data machine_id machine_info sale]⟩) ∧
    (∀ existing, alookup st.history (skey (txIdOf sale)) = some existing →
      (processSale machine_id machine_info st sale).events = st.events ∧
      (processSale machine_id machine_info st sale).history =
        if pyEq (jget existing "amount")
              (jget (extract_sale_data machine_id machine_info sale) "amount") = false
            ∨ pyEq (jget existing "product_name")
              (jget (extract_sale_data machine_id machine_info sale) "product_name") = false
            ∨ pyEq (jget existing "timestamp")
              (jget (extract_sale_data machine_id machine_info sale) "timestamp") = false
        then upsert st.history (skey (txIdOf sale)) (extract_sale_data machine_id machine_info sale)
        else st.history) := by
  have hnle : ¬v ≤ 0 := not_le.mpr hv
  constructor
  · intro hnew
    simp [processSale, hsv, hnle, hid, hnew]
  · intro existing hex
    by_cases hc : transaction_changed existing (extract_sale_data machine_id machine_info sale) = true
    · rw [if_pos ((transaction_changed_iff _ _).mp hc)]
      constructor
      · simp [processSale, hsv, hnle, hid, hex, hc]
      · simp [processSale, hsv, hnle, hid, hex, hc]
    · have hc' : transaction_changed existing (extract_sale_data machine_id machine_info sale)
          = false := by
        revert hc
        cases transaction_changed existing (extract_sale_data machine_id machine_info sale) <;> simp
      rw [if_neg (fun hor => hc ((transaction_changed_iff _ _).mpr hor))]
      constructor
      · simp [processSale, hsv, hnle, hid, hex, hc']
      · simp [processSale, hsv, hnle, hid, hex, hc']

/-- Witness for C1 on a concrete first sighting: the record is stored under
its id and exactly one event is appended. -/
theorem claim_C1_witness :
    processSale "M" ⟨"M", .str "Machine", []⟩ ⟨[], []⟩
        [("TransactionID", .str "T1"), ("amount", .num 3), ("ProductName", .str "Cola")]
      = ⟨upsert [] (skey (txIdOf [("TransactionID", .str "T1"), ("amount", .num 3),
            ("ProductName", .str "Cola")]))
           (extract_sale_data "M" ⟨"M", .str "Machine", []⟩
             [("TransactionID", .str "T1"), ("amount", .num 3), ("ProductName", .str "Cola")]),
         [] ++ [extract_sale_data "M" ⟨"M", .str "Machine", []⟩
             [("TransactionID", .str "T1"), ("amount", .num 3), ("ProductName", .str "Cola")]]⟩ :=
  (claim_C1 "M" ⟨"M", .str "Machine", []⟩ ⟨[], []⟩
      [("TransactionID", .str "T1"), ("amount", .num 3), ("ProductName", .str "Cola")] 3
      (by decide) (by decide) (by decide)).1 rfl

/-- Lookup through a map that transforms only the values. -/
theorem alookup_map_filter (hist : HistAll) (f : Hist → Hist) (machine_id : String) :
    alookup (hist.map fun m => (m.1, f m.2)) machine_id
      = (alookup hist machine_id).map f := by
  induction hist with
  | nil => rfl
  | cons m t ih =>
    by_cases hk : machine_id = m.1
    · simp [alookup, hk]
    · simpa [alookup, hk] using ih

/-- A value whose parse is `.ok (some _)` is truthy (the parser rejects the
empty string and every falsy value, and raises on truthy non-strings). -/
theorem truthy_of_parse (v : JVal) (d : ℤ)
    (h : parseTimestampV v = .ok (some d)) : truthy v = true := by
  cases v with
  | str s =>
    by_cases hs : s = ""
    · subst hs; simp [parseTimestampV, parse_timestamp] at h
    · simp [truthy, hs]
  | null => simp [parseTimestampV, truthy] at h
  | bool b => cases b <;> simp [parseTimestampV, truthy] at h
  | num q => by_cases hq : q = 0 <;> simp [parseTimestampV, truthy, hq] at h

/-- On a history with no raising timestamp, cleanup completes and acts as
the per-machine `cleanupKeep` filter. -/
theorem cleanup_ok_of_safe (hist : HistAll) (nowYear : ℤ)
    (hsafe : ∀ mkv ∈ hist, ∀ kv ∈ mkv.2,
      tsNoRaise (jgetD kv.2 "timestamp" (.str "")) = true) :
    cleanup_old_transactions hist nowYear
      = .ok (hist.map fun m => (m.1, m.2.filter (cleanupKeep (cutoffDate nowYear)))) := by
  induction hist with
  | nil => rfl
  | cons m rest ih =>
    have hscan : cleanupScan (cutoffDate nowYear) m.2
        = some (m.2.filter (cleanupKeep (cutoffDate nowYear))) := by
      unfold cleanupScan
      rw [if_neg ?_]
      intro hany
      simp only [List.any_eq_true] at hany
      obtain ⟨kv, hkv, hbad⟩ := hany
      rw [hsafe m (List.mem_cons_self _ _) kv hkv] at hbad
      cases hbad
    have ihr := ih (fun mkv hm kv hk => hsafe mkv (List.mem_cons_of_mem _ hm) kv hk)
    obtain ⟨mid, txs⟩ := m
    simp only [cleanup_old_transactions, hscan, ihr, List.map]

/-- C6 counterexample: a machine holding a record with a numeric (truthy
non-string) timestamp — exactly what `_extract_sale_data` stores verbatim
from a vendor JSON number — makes `_cleanup_old_transactions` raise
`AttributeError` mid-scan, so the claimed post-cleanup state is never
reached: the 2021 record, which the claim requires to be purged at current
year 2024 (cutoff 2023-01-01 UTC), is still stored in the in-memory
history the exception leaves behind. -/
theorem claim_C6_counterexample :
    cleanup_old_transactions
        [("M", [(PyKey.pstr "T1", [("timestamp", JVal.num 1699999999)]),
                (PyKey.pstr "T2", [("timestamp", JVal.str "2021-06-01T00:00:00")])])] 2024
      = .raised [("M", [(PyKey.pstr "T1", [("timestamp", JVal.num 1699999999)]),
                (PyKey.pstr "T2", [("timestamp", JVal.str "2021-06-01T00:00:00")])])] ∧
    parseTimestampV (JVal.str "2021-06-01T00:00:00") = .ok (some 1622505600000000) ∧
    (1622505600000000 : ℤ) < cutoffDate 2024 :=
  ⟨rfl, rfl, by decide⟩

/-- C6 (amended): over histories whose stored timestamp values are strings
or falsy — so that `_parse_timestamp` does not raise — cleanup completes,
and afterwards every stored record whose parsed timestamp is strictly
before January 1 (UTC) of the previous year is gone from its machine's
history while every record parsed at or after that cutoff is retained; a
truthy non-string timestamp instead makes the cleanup raise
`AttributeError` mid-scan (shown by the counterexample), aborting the poll
cycle. -/
theorem claim_C6 (hist : HistAll) (nowYear : ℤ)
    (hsafe : ∀ mkv ∈ hist, ∀ kv ∈ mkv.2,
      tsNoRaise (jgetD kv.2 "timestamp" (.str "")) = true) :
    ∃ hist', cleanup_old_transactions hist nowYear = .ok hist' ∧
      ∀ machine_id txs txs', alookup hist machine_id = some txs →
        alookup hist' machine_id = some txs' →
        ∀ kv ∈ txs, ∀ d,
          parseTimestampV (jgetD kv.2 "timestamp" (.str "")) = .ok (some d) →
            (d < cutoffDate nowYear → kv ∉ txs') ∧
            (cutoffDate nowYear ≤ d → kv ∈ txs') := by
  refine ⟨_, cleanup_ok_of_safe hist nowYear hsafe, ?_⟩
  intro machine_id txs txs' h1 h2
  rw [alookup_map_filter, h1] at h2
  injection h2 with h2
  intro kv hkv d hd
  have htr : truthy (jgetD kv.2 "timestamp" (.str "")) = true := truthy_of_parse _ _ hd
  constructor
  · intro hlt hmem
    rw [← h2] at hmem
    have hp := (List.mem_filter.mp hmem).2
    simp [cleanupKeep, htr, hd, hlt] at hp
  · intro hge
    rw [← h2]
    refine List.mem_filter.mpr ⟨hkv, ?_⟩
    simp [cleanupKeep, htr, hd, not_lt.mpr hge]

/-- Witness for C6 (amended) on a raise-free history: cleanup completes and
purges by the cutoff. -/
theorem claim_C6_witness :
    ∃ hist', cleanup_old_transactions
        [("M", [(PyKey.pstr "T1", [("timestamp", JVal.str "2021-06-01T00:00:00")]),
                (PyKey.pstr "T2", [("timestamp", JVal.str "2023-06-01T00:00:00")])])] 2024
      = .ok hist' ∧
      ∀ machine_id txs txs',
        alookup [("M", [(PyKey.pstr "T1", [("timestamp", JVal.str "2021-06-01T00:00:00")]),
            (PyKey.pstr "T2", [("timestamp", JVal.str "2023-06-01T00:00:00")])])] machine_id
          = some txs →
        alookup hist' machine_id = some txs' →
        ∀ kv ∈ txs, ∀ d,
          parseTimestampV (jgetD kv.2 "timestamp" (.str "")) = .ok (some d) →
            (d < cutoffDate 2024 → kv ∉ txs') ∧ (cutoffDate 2024 ≤ d → kv ∈ txs') :=
  claim_C6 [("M", [(PyKey.pstr "T1", [("timestamp", JVal.str "2021-06-01T00:00:00")]),
      (PyKey.pstr "T2", [("timestamp", JVal.str "2023-06-01T00:00:00")])])] 2024 (by decide)

/-- The invariant maintained by `get_last_sale`'s loop over the records
seen so far: either nothing parseable has been seen, or the accumulator
holds a seen record with a maximal parsed timestamp. -/
def LastInv (seen : List JObj) (acc : Option JObj × Option ℤ) : Prop :=
  (acc = (none, none) ∧
    ∀ tx ∈ seen, parseTimestampV (jgetD tx "timestamp" (.str "")) = .ok none) ∨
  (∃ t d, acc = (some t, some d) ∧ t ∈ seen ∧
    parseTimestampV (jgetD t "timestamp" (.str "")) = .ok (some d) ∧
    ∀ tx ∈ seen, ∀ d',
      parseTimestampV (jgetD tx "timestamp" (.str "")) = .ok (some d') → d' ≤ d)

theorem lastSaleStep_inv (seen : List JObj) (acc : Option JObj × Option ℤ) (y : JObj)
    (hy : tsNoRaise (jgetD y "timestamp" (.str "")) = true)
    (hacc : LastInv seen acc) :
    ∃ acc', lastSaleStep acc y = .ok acc' ∧ LastInv (seen ++ [y]) acc' := by
  rcases hp : parseTimestampV (jgetD y "timestamp" (.str "")) with e | o
  · cases e
    rw [(parseTimestampV_error_iff _).mp hp] at hy
    cases hy
  · rcases o with _ | dt
    · refine ⟨acc, by simp [lastSaleStep, hp], ?_⟩
      rcases hacc with ⟨ha, hall⟩ | ⟨t, d, ha, htm, hpt, hmax⟩
      · left
        refine ⟨ha, ?_⟩
        intro tx htx
        rcases List.mem_append.mp htx with h | h
        · exact hall tx h
        · simp at h; subst h; exact hp
      · right
        refine ⟨t, d, ha, List.mem_append_left _ htm, hpt, ?_⟩
        intro tx htx d' hd'
        rcases List.mem_append.mp htx with h | h
        · exact hmax tx h d' hd'
        · simp at h; subst h; rw [hp] at hd'
          injection hd' with hd'; cases hd'
    · rcases hacc with ⟨ha, hall⟩ | ⟨t, d, ha, htm, hpt, hmax⟩
      · refine ⟨(some y, some dt), by simp [lastSaleStep, hp, ha], ?_⟩
        right
        refine ⟨y, dt, rfl, List.mem_append_right _ (by simp), hp, ?_⟩
        intro tx htx d' hd'
        rcases List.mem_append.mp htx with h | h
        · rw [hall tx h] at hd'
          injection hd' with hd'; cases hd'
        · simp at h; subst h; rw [hp] at hd'
          injection hd' with hd'
          injection hd' with hd'
          exact le_of_eq hd'.symm
      · by_cases hgt : dt > d
        · refine ⟨(some y, some dt), by simp [lastSaleStep, hp, ha, hgt], ?_⟩
          right
          refine ⟨y, dt, rfl, List.mem_append_right _ (by simp), hp, ?_⟩
          intro tx htx d' hd'
          rcases List.mem_append.mp htx with h | h
          · exact le_of_lt (lt_of_le_of_lt (hmax tx h d' hd') hgt)
          · simp at h; subst h; rw [hp] at hd'
            injection hd' with hd'
            injection hd' with hd'
            exact le_of_eq hd'.symm
        · refine ⟨acc, by simp [lastSaleStep, hp, ha, hgt], ?_⟩
          right
          refine ⟨t, d, ha, List.mem_append_left _ htm, hpt, ?_⟩
          intro tx htx d' hd'
          rcases List.mem_append.mp htx with h | h
          · exact hmax tx h d' hd'
          · simp at h; subst h; rw [hp] at hd'
            injection hd' with hd'
            injection hd' with hd'
            subst hd'
            exact not_lt.mp hgt

theorem lastSaleFold_inv (l : List JObj) (seen : List JObj) (acc : Option JObj × Option ℤ)
    (hl : ∀ tx ∈ l, tsNoRaise (jgetD tx "timestamp" (.str "")) = true)
    (hacc : LastInv seen acc) :
    ∃ acc', lastSaleFold l acc = .ok acc' ∧ LastInv (seen ++ l) acc' := by
  induction l generalizing seen acc with
  | nil => exact ⟨acc, rfl, by simpa using hacc⟩
  | cons y l ih =>
    obtain ⟨acc1, hstep, hinv1⟩ :=
      lastSaleStep_inv seen acc y (hl y (List.mem_cons_self _ _)) hacc
    obtain ⟨acc', hfold, hinv'⟩ :=
      ih (seen ++ [y]) acc1 (fun tx htx => hl tx (List.mem_cons_of_mem _ htx)) hinv1
    refine ⟨acc', ?_, by simpa [List.append_assoc] using hinv'⟩
    simp [lastSaleFold, hstep, hfold]

/-- The loop raises on the first record with a truthy non-string
timestamp; in particular it raises whenever the list contains one. -/
theorem lastSaleFold_raises (l : List JObj) (acc : Option JObj × Option ℤ) (tx : JObj)
    (hmem : tx ∈ l) (hbad : tsNoRaise (jgetD tx "timestamp" (.str "")) = false) :
    lastSaleFold l acc = .error () := by
  induction l generalizing acc with
  | nil => cases hmem
  | cons y l ih =>
    rcases List.mem_cons.mp hmem with h | h
    · subst h
      have hp : parseTimestampV (jgetD tx "timestamp" (.str "")) = .error () :=
        (parseTimestampV_error_iff _).mpr hbad
      simp [lastSaleFold, lastSaleStep, hp]
    · rcases hstep : lastSaleStep acc y with e | acc1
      · cases e
        simp [lastSaleFold, hstep]
      · simpa [lastSaleFold, hstep] using ih acc1 h

/-- C5 counterexample: a machine whose history holds a record with a
numeric timestamp (stored verbatim by `_extract_sale_data`'s alias chain)
and a perfectly parseable record makes `get_last_sale` raise
`AttributeError`, whereas the claim requires the unparseable entry to be
ignored and the parseable record returned. -/
theorem claim_C5_counterexample :
    get_last_sale
        [("M", [(PyKey.pstr "T1", [("timestamp", JVal.num 1699999999)]),
                (PyKey.pstr "T2", [("timestamp", JVal.str "2024-02-01T00:00:00")])])]
        "M" = .error () ∧
    parseTimestampV (JVal.str "2024-02-01T00:00:00") = .ok (some 1706745600000000) :=
  ⟨rfl, rfl⟩

/-- C5 (amended): over histories whose stored timestamp values are strings
or falsy — so that `_parse_timestamp` does not raise — `get_last_sale`
returns a stored record whose parsed timestamp is maximal among the
machine's parseable records (unparseable strings are ignored for the
comparison) and `None` exactly when the machine has no history or no
record parses; a record with a truthy non-string timestamp instead makes
`get_last_sale` raise `AttributeError` rather than ignore that record. -/
theorem claim_C5 (hist : HistAll) (machine_id : String) :
    (alookup hist machine_id = none → get_last_sale hist machine_id = .ok none) ∧
    (∀ txs, alookup hist machine_id = some txs →
      (∀ tx ∈ txs.map Prod.snd, tsNoRaise (jgetD tx "timestamp" (.str "")) = true) →
      ((get_last_sale hist machine_id = .ok none ↔
          ∀ tx ∈ txs.map Prod.snd,
            parseTimestampV (jgetD tx "timestamp" (.str "")) = .ok none) ∧
       (∀ tx, get_last_sale hist machine_id = .ok (some tx) →
          tx ∈ txs.map Prod.snd ∧
          ∃ d, parseTimestampV (jgetD tx "timestamp" (.str "")) = .ok (some d) ∧
            ∀ tx' ∈ txs.map Prod.snd, ∀ d',
              parseTimestampV (jgetD tx' "timestamp" (.str "")) = .ok (some d') →
                d' ≤ d))) ∧
    (∀ txs tx, alookup hist machine_id = some txs → tx ∈ txs.map Prod.snd →
      tsNoRaise (jgetD tx "timestamp" (.str "")) = false →
      get_last_sale hist machine_id = .error ()) := by
  refine ⟨?_, ?_, ?_⟩
  · intro h
    simp [get_last_sale, h]
  · intro txs hl hsafe
    obtain ⟨accF, hfold, hinvF⟩ :=
      lastSaleFold_inv (txs.map Prod.snd) [] (none, none) hsafe (Or.inl ⟨rfl, by simp⟩)
    simp only [List.nil_append] at hinvF
    constructor
    · constructor
      · intro hnone tx htx
        rcases hinvF with ⟨_, hall⟩ | ⟨t, d, ha, htm, hpt, hmax⟩
        · exact hall tx htx
        · exfalso
          have hne : txs.isEmpty = false := by
            cases txs with
            | nil => simp at htm
            | cons a l => rfl
          have hsome : get_last_sale hist machine_id = .ok (some t) := by
            simp [get_last_sale, hl, hne, hfold, ha]
          rw [hnone] at hsome
          injection hsome with hx
          cases hx
      · intro hall
        cases htxs : txs.isEmpty with
        | true => simp [get_last_sale, hl, htxs]
        | false =>
          rcases hinvF with ⟨ha, _⟩ | ⟨t, d, ha, htm, hpt, hmax⟩
          · simp [get_last_sale, hl, htxs, hfold, ha]
          · exfalso
            have := hall t htm
            rw [hpt] at this
            injection this with hx
            cases hx
    · intro tx htx
      rcases hinvF with ⟨ha, _⟩ | ⟨t, d, ha, htm, hpt, hmax⟩
      · exfalso
        have hnone : get_last_sale hist machine_id = .ok none := by
          cases htxs : txs.isEmpty with
          | true => simp [get_last_sale, hl, htxs]
          | false => simp [get_last_sale, hl, htxs, hfold, ha]
        rw [htx] at hnone
        injection hnone with hx
        cases hx
      · have hne : txs.isEmpty = false := by
          cases txs with
          | nil => simp at htm
          | cons a l => rfl
        have hsome : get_last_sale hist machine_id = .ok (some t) := by
          simp [get_last_sale, hl, hne, hfold, ha]
        rw [htx] at hsome
        injection hsome with hx
        injection hx with hx
        subst hx
        exact ⟨htm, d, hpt, hmax⟩
  · intro txs tx hl htx hbad
    have hne : txs.isEmpty = false := by
      cases txs with
      | nil => simp at htx
      | cons a l => rfl
    have hfold := lastSaleFold_raises (txs.map Prod.snd) (none, none) tx htx hbad
    simp [get_last_sale, hl, hne, hfold]

/-- Witness for C5 (amended): on a machine with a parseable and an
unparseable-string record, the parseable one with the greater timestamp is
the returned maximum. -/
theorem claim_C5_witness :
    ([("timestamp", JVal.str "2024-02-01T00:00:00")] : JObj) ∈
      ([(PyKey.pstr "T1", [("timestamp", JVal.str "junk")]),
        (PyKey.pstr "T2", [("timestamp", JVal.str "2024-02-01T00:00:00")])] : Hist).map
        Prod.snd ∧
    ∃ d, parseTimestampV (jgetD [("timestamp", JVal.str "2024-02-01T00:00:00")]
        "timestamp" (.str "")) = .ok (some d) ∧
      ∀ tx' ∈ ([(PyKey.pstr "T1", [("timestamp", JVal.str "junk")]),
          (PyKey.pstr "T2", [("timestamp", JVal.str "2024-02-01T00:00:00")])] : Hist).map
          Prod.snd, ∀ d',
        parseTimestampV (jgetD tx' "timestamp" (.str "")) = .ok (some d') → d' ≤ d :=
  ((claim_C5 [("M", [(PyKey.pstr "T1", [("timestamp", JVal.str "junk")]),
        (PyKey.pstr "T2", [("timestamp", JVal.str "2024-02-01T00:00:00")])])] "M").2.1
      [(PyKey.pstr "T1", [("timestamp", JVal.str "junk")]),
       (PyKey.pstr "T2", [("timestamp", JVal.str "2024-02-01T00:00:00")])]
      rfl (by decide)).2
    [("timestamp", JVal.str "2024-02-01T00:00:00")] (by rfl)

/-- One migration step never removes or alters an existing history entry. -/
theorem migrateStep_preserves (acc : HistAll) (mkv : String × LegacyVal)
    (m : String) (k : PyKey) (mtxs : Hist) (r : JObj)
    (hm : alookup acc m = some mtxs) (hk : alookup mtxs k = some r) :
    ∃ mtxs', alookup (migrateStep acc mkv) m = some mtxs' ∧ alookup mtxs' k = some r := by
  rcases mkv with ⟨mid, lv⟩
  cases lv with
  | nondict => exact ⟨mtxs, hm, hk⟩
  | dict sale_data =>
    by_cases ht : truthy (jget sale_data "transaction_id") = false
    · exact ⟨mtxs, by simp [migrateStep, ht, hm], hk⟩
    · rcases ha : alookup acc mid with _ | machine_txs
      · by_cases hmm : m = mid
        · subst hmm; rw [hm] at ha; cases ha
        · refine ⟨mtxs, ?_, hk⟩
          simp [migrateStep, ht, ha, alookup_upsert, hmm, hm]
      · by_cases hp : (alookup machine_txs (pyKey (jget sale_data "transaction_id"))).isSome
        · exact ⟨mtxs, by simp [migrateStep, ht, ha, hp, hm], hk⟩
        · by_cases hmm : m = mid
          · subst hmm
            rw [hm] at ha
            injection ha with ha
            subst ha
            have hkne : k ≠ pyKey (jget sale_data "transaction_id") := by
              intro he
              exact hp (by rw [← he, hk]; rfl)
            refine ⟨upsert mtxs (pyKey (jget sale_data "transaction_id")) sale_data, ?_, ?_⟩
            · simp [migrateStep, ht, hm, hp, alookup_upsert]
            · rw [alookup_upsert]
              simp [hkne, hk]
          · refine ⟨mtxs, ?_, hk⟩
            simp [migrateStep, ht, ha, hp, alookup_upsert, hmm, hm]

/-- A whole migration run never removes or alters an existing history
entry. -/
theorem migrate_preserves (old : List (String × LegacyVal)) (acc : HistAll)
    (m : String) (k : PyKey) (mtxs : Hist) (r : JObj)
    (hm : alookup acc m = some mtxs) (hk : alookup mtxs k = some r) :
    ∃ mtxs', alookup (migrate_old_data acc old) m = some mtxs' ∧ alookup mtxs' k = some r := by
  induction old generalizing acc mtxs with
  | nil => exact ⟨mtxs, hm, hk⟩
  | cons mkv old ih =>
    obtain ⟨mtxs1, hm1, hk1⟩ := migrateStep_preserves acc mkv m k mtxs r hm hk
    exact ih (migrateStep acc mkv) mtxs1 hm1 hk1

/-- After the step that processes a migratable legacy entry, that entry's
machine stores its transaction id. -/
theorem migrateStep_inserts (acc : HistAll) (m : String) (o : JObj)
    (ht : truthy (jget o "transaction_id") = true) :
    ∃ mtxs, alookup (migrateStep acc (m, .dict o)) m = some mtxs ∧
      (alookup mtxs (pyKey (jget o "transaction_id"))).isSome := by
  rcases ha : alookup acc m with _ | machine_txs
  · refine ⟨upsert [] (pyKey (jget o "transaction_id")) o, ?_, ?_⟩
    · simp [migrateStep, ht, ha, alookup_upsert]
    · rw [alookup_upsert]
      simp
  · by_cases hp : (alookup machine_txs (pyKey (jget o "transaction_id"))).isSome
    · exact ⟨machine_txs, by simp [migrateStep, ht, ha, hp], hp⟩
    · refine ⟨upsert machine_txs (pyKey (jget o "transaction_id")) o, ?_, ?_⟩
      · simp [migrateStep, ht, ha, hp, alookup_upsert]
      · rw [alookup_upsert]
        simp

/-- Every migratable legacy entry is present after a migration run. -/
theorem migrate_mem_present (old : List (String × LegacyVal)) (acc : HistAll)
    (m : String) (o : JObj) (hmem : (m, LegacyVal.dict o) ∈ old)
    (ht : truthy (jget o "transaction_id") = true) :
    ∃ mtxs, alookup (migrate_old_data acc old) m = some mtxs ∧
      (alookup mtxs (pyKey (jget o "transaction_id"))).isSome := by
  induction old generalizing acc with
  | nil => cases hmem
  | cons mkv old ih =>
    rcases List.mem_cons.mp hmem with h | h
    · obtain ⟨mtxs, hm, hp⟩ := migrateStep_inserts acc m o ht
      rw [h] at hm
      rcases hr : alookup mtxs (pyKey (jget o "transaction_id")) with _ | r
      · rw [hr] at hp; cases hp
      · obtain ⟨mtxs', hm', hk'⟩ :=
          migrate_preserves old (migrateStep acc mkv) m (pyKey (jget o "transaction_id"))
            mtxs r hm hr
        exact ⟨mtxs', hm', by simp [hk']⟩
    · exact ih (migrateStep acc mkv) h

/-- A migration run over legacy data that is already fully present is the
identity. -/
theorem migrate_id_of_present (old : List (String × LegacyVal)) (acc : HistAll)
    (h : ∀ m o, (m, LegacyVal.dict o) ∈ old → truthy (jget o "transaction_id") = true →
      ∃ mtxs, alookup acc m = some mtxs ∧
        (alookup mtxs (pyKey (jget o "transaction_id"))).isSome) :
    migrate_old_data acc old = acc := by
  induction old generalizing acc with
  | nil => rfl
  | cons mkv old ih =>
    have hstep : migrateStep acc mkv = acc := by
      rcases mkv with ⟨m, lv⟩
      cases lv with
      | nondict => rfl
      | dict o =>
        by_cases ht : truthy (jget o "transaction_id") = false
        · simp [migrateStep, ht]
        · have ht2 : truthy (jget o "transaction_id") = true := by
            revert ht; cases truthy (jget o "transaction_id") <;> simp
          obtain ⟨mtxs, hm, hp⟩ := h m o (List.mem_cons_self _ _) ht2
          simp [migrateStep, ht, hm, hp]
    have : migrate_old_data acc (mkv :: old) = migrate_old_data (migrateStep acc mkv) old := rfl
    rw [this, hstep]
    exact ih acc (fun m o hm ht => h m o (List.mem_cons_of_mem _ hm) ht)

/-- C8: migration of the legacy single-record-per-machine format is
idempotent — a second run (or a run over entries whose machine id and
transaction id already exist) inserts nothing and changes nothing: every
legacy entry with a truthy transaction id is present after one run, a
second run is the identity, and pre-existing history entries keep their
exact stored record. -/
theorem claim_C8 (hist : HistAll) (old : List (String × LegacyVal)) :
    migrate_old_data (migrate_old_data hist old) old = migrate_old_data hist old ∧
    (∀ m o, (m, LegacyVal.dict o) ∈ old → truthy (jget o "transaction_id") = true →
      ∃ mtxs, alookup (migrate_old_data hist old) m = some mtxs ∧
        (alookup mtxs (pyKey (jget o "transaction_id"))).isSome) ∧
    (∀ m mtxs k r, alookup hist m = some mtxs → alookup mtxs k = some r →
      ∃ mtxs', alookup (migrate_old_data hist old) m = some mtxs' ∧
        alookup mtxs' k = some r) :=
  ⟨migrate_id_of_present old _ (fun m o hm ht => migrate_mem_present old hist m o hm ht),
   fun m o hm ht => migrate_mem_present old hist m o hm ht,
   fun m mtxs k r hm hk => migrate_preserves old hist m k mtxs r hm hk⟩

/-- Witness for C8: the "M7"/"T1" legacy record migrates exactly once even
when migration runs twice. -/
theorem claim_C8_witness :
    migrate_old_data
        (migrate_old_data [] [("M7", .dict [("transaction_id", .str "T1")])])
        [("M7", .dict [("transaction_id", .str "T1")])]
      = migrate_old_data [] [("M7", .dict [("transaction_id", .str "T1")])] :=
  (claim_C8 [] [("M7", .dict [("transaction_id", .str "T1")])]).1

/-! ### Idempotence of sale ingestion (claim C4)

The transaction loop decomposes per transaction id: for each id the loop
acts as a fold of "overwrite when a tracked field changed" over the
qualifying sales carrying that id. -/

/-- The guard of the transaction loop: a sale is processed when its
settlement value is positive and its transaction id is non-empty. -/
def saleQualifies (sale : JObj) : Bool :=
  match get_settlement_value sale with
  | none => false
  | some v => if v ≤ 0 then false else decide (txIdOf sale ≠ "")

/-- The per-transaction-id update of the loop: overwrite the stored record
exactly when `_transaction_changed`. -/
def gstep (machine_id : String) (machine_info : MachineInfo) (r sale : JObj) : JObj :=
  if transaction_changed r (extract_sale_data machine_id machine_info sale)
  then extract_sale_data machine_id machine_info sale else r

/-- The effect of the transaction loop on one transaction id, as a function
of the stored record and the qualifying sales carrying that id. -/
def perId (machine_id : String) (machine_info : MachineInfo) :
    Option JObj → List JObj → Option JObj
  | none, [] => none
  | none, y :: ys =>
    some (ys.foldl (gstep machine_id machine_info) (extract_sale_data machine_id machine_info y))
  | some r, ys => some (ys.foldl (gstep machine_id machine_info) r)

theorem processSale_not_qual (machine_id : String) (machine_info : MachineInfo)
    (st : PollState) (sale : JObj) (h : saleQualifies sale = false) :
    processSale machine_id machine_info st sale = st := by
  rcases hsv : get_settlement_value sale with _ | v
  · simp [processSale, hsv]
  · have h2 : (if v ≤ 0 then false else decide (txIdOf sale ≠ "")) = false := by
      have h' := h
      unfold saleQualifies at h'
      rw [hsv] at h'
      exact h'
    by_cases hle : v ≤ 0
    · simp [processSale, hsv, hle]
    · rw [if_neg hle] at h2
      simp only [decide_eq_false_iff_not, Decidable.not_not] at h2
      simp [processSale, hsv, hle, h2]

theorem processSale_qual (machine_id : String) (machine_info : MachineInfo)
    (st : PollState) (sale : JObj) (h : saleQualifies sale = true) :
    processSale machine_id machine_info st sale =
      match alookup st.history (skey (txIdOf sale)) with
      | none =>
        ⟨upsert st.history (skey (txIdOf sale)) (extract_sale_data machine_id machine_info sale),
         st.events ++ [extract_sale_data machine_id machine_info sale]⟩
      | some existing =>
        if transaction_changed existing (extract_sale_data machine_id machine_info sale)
        then ⟨upsert st.history (skey (txIdOf sale))
                (extract_sale_data machine_id machine_info sale), st.events⟩
        else st := by
  rcases hsv : get_settlement_value sale with _ | v
  · have h2 : (false : Bool) = true := by
      have h' := h
      unfold saleQualifies at h'
      rw [hsv] at h'
      exact h'
    cases h2
  · have h2 : (if v ≤ 0 then false else decide (txIdOf sale ≠ "")) = true := by
      have h' := h
      unfold saleQualifies at h'
      rw [hsv] at h'
      exact h'
    by_cases hle : v ≤ 0
    · rw [if_pos hle] at h2; cases h2
    · rw [if_neg hle] at h2
      have hid : ¬txIdOf sale = "" := by simpa using h2
      simp only [processSale, hsv, if_neg hle, if_neg hid]

/-- Pointwise effect of one loop iteration on the history. -/
theorem alookup_processSale (machine_id : String) (machine_info : MachineInfo)
    (st : PollState) (sale : JObj) (T : PyKey) :
    alookup (processSale machine_id machine_info st sale).history T =
      if saleQualifies sale = true ∧ skey (txIdOf sale) = T then
        match alookup st.history T with
        | none => some (extract_sale_data machine_id machine_info sale)
        | some r => some (gstep machine_id machine_info r sale)
      else alookup st.history T := by
  by_cases hq : saleQualifies sale = true
  · rw [processSale_qual machine_id machine_info st sale hq]
    by_cases hT : skey (txIdOf sale) = T
    · rw [if_pos ⟨hq, hT⟩]
      rcases hex : alookup st.history (skey (txIdOf sale)) with _ | ex
      · rw [← hT, hex]
        simp [alookup_upsert, hT]
      · rw [← hT, hex]
        by_cases hc : transaction_changed ex (extract_sale_data machine_id machine_info sale)
        · simp [hc, alookup_upsert, gstep]
        · simp [hc, hex, gstep]
    · rw [if_neg (fun hand => hT hand.2)]
      have hT' : ¬T = skey (txIdOf sale) := fun he => hT he.symm
      rcases hex : alookup st.history (skey (txIdOf sale)) with _ | ex
      · simp [alookup_upsert, hT']
      · by_cases hc : transaction_changed ex (extract_sale_data machine_id machine_info sale)
        · simp [hc, alookup_upsert, hT']
        · simp [hc]
  · have hq' : saleQualifies sale = false := by
      revert hq; cases saleQualifies sale <;> simp
    rw [processSale_not_qual machine_id machine_info st sale hq']
    rw [if_neg (fun hand => hq hand.1)]

/-- The loop's pointwise per-id decomposition over a whole sales list. -/
theorem alookup_pollFold (machine_id : String) (machine_info : MachineInfo)
    (sales : List JObj) (st : PollState) (T : PyKey) :
    alookup (sales.foldl (processSale machine_id machine_info) st).history T =
      perId machine_id machine_info (alookup st.history T)
        (sales.filter fun s => saleQualifies s && decide (skey (txIdOf s) = T)) := by
  induction sales generalizing st with
  | nil =>
    rcases h : alookup st.history T with _ | r <;> simp [perId, h]
  | cons sale sales ih =>
    rw [List.foldl_cons, ih (processSale machine_id machine_info st sale),
      alookup_processSale]
    by_cases hq : saleQualifies sale = true
    · by_cases hT : skey (txIdOf sale) = T
      · rw [if_pos ⟨hq, hT⟩]
        have hfil : (sale :: sales).filter
              (fun s => saleQualifies s && decide (skey (txIdOf s) = T))
            = sale :: sales.filter (fun s => saleQualifies s && decide (skey (txIdOf s) = T)) := by
          simp [List.filter, hq, hT]
        rw [hfil]
        rcases hex : alookup st.history T with _ | r
        · simp [perId]
        · simp [perId, List.foldl_cons]
      · rw [if_neg (fun hand => hT hand.2)]
        have hfil : (sale :: sales).filter
              (fun s => saleQualifies s && decide (skey (txIdOf s) = T))
            = sales.filter (fun s => saleQualifies s && decide (skey (txIdOf s) = T)) := by
          simp [List.filter, hT]
        rw [hfil]
    · rw [if_neg (fun hand => hq hand.1)]
      have hq' : saleQualifies sale = false := by
        revert hq; cases saleQualifies sale <;> simp
      have hfil : (sale :: sales).filter
            (fun s => saleQualifies s && decide (skey (txIdOf s) = T))
          = sales.filter (fun s => saleQualifies s && decide (skey (txIdOf s) = T)) := by
        simp [List.filter, hq']
      rw [hfil]

/-- An unchanged comparison transfers: if the stored record does not differ
from a fresh extraction in any tracked field, both compare equally against
anything else. -/
theorem changed_congr (a b : JObj) (h : transaction_changed a b = false) (c : JObj) :
    transaction_changed a c = transaction_changed b c := by
  simp only [transaction_changed, List.any_cons, List.any_nil, Bool.or_false] at h ⊢
  have h1 : pyEq (jget a "amount") (jget b "amount") = true := by
    revert h; cases pyEq (jget a "amount") (jget b "amount") <;> simp
  have h2 : pyEq (jget a "product_name") (jget b "product_name") = true := by
    revert h; cases pyEq (jget a "product_name") (jget b "product_name") <;> simp
  have h3 : pyEq (jget a "timestamp") (jget b "timestamp") = true := by
    revert h; cases pyEq (jget a "timestamp") (jget b "timestamp") <;> simp
  simp only [pyEq, decide_eq_true_eq] at h1 h2 h3
  simp only [pyEq, h1, h2, h3]

theorem gstep_fold_dichotomy (machine_id : String) (machine_info : MachineInfo)
    (l : List JObj) (a b : JObj)
    (h : ∀ c, transaction_changed a c = transaction_changed b c) :
    l.foldl (gstep machine_id machine_info) a = l.foldl (gstep machine_id machine_info) b ∨
      (l.foldl (gstep machine_id machine_info) a = a ∧
       l.foldl (gstep machine_id machine_info) b = b) := by
  induction l generalizing a b with
  | nil => exact Or.inr ⟨rfl, rfl⟩
  | cons z l ih =>
    by_cases hch : transaction_changed a (extract_sale_data machine_id machine_info z) = true
    · have hb : transaction_changed b (extract_sale_data machine_id machine_info z) = true := by
        rw [← h]; exact hch
      left
      simp [List.foldl_cons, gstep, hch, hb]
    · have hch' : transaction_changed a (extract_sale_data machine_id machine_info z) = false := by
        revert hch; cases transaction_changed a (extract_sale_data machine_id machine_info z)
          <;> simp
      have hb : transaction_changed b (extract_sale_data machine_id machine_info z) = false := by
        rw [← h]; exact hch'
      have ga : gstep machine_id machine_info a z = a := by simp [gstep, hch']
      have gb : gstep machine_id machine_info b z = b := by simp [gstep, hb]
      rw [List.foldl_cons, List.foldl_cons, ga, gb]
      exact ih a b h

theorem gstep_fold_idem (machine_id : String) (machine_info : MachineInfo)
    (l : List JObj) (r : JObj) :
    l.foldl (gstep machine_id machine_info) (l.foldl (gstep machine_id machine_info) r)
      = l.foldl (gstep machine_id machine_info) r := by
  induction l generalizing r with
  | nil => rfl
  | cons y l ih =>
    rw [List.foldl_cons, List.foldl_cons]
    set r1 := gstep machine_id machine_info r y with hr1
    by_cases hA : transaction_changed (l.foldl (gstep machine_id machine_info) r1)
        (extract_sale_data machine_id machine_info y) = true
    · have gA : gstep machine_id machine_info (l.foldl (gstep machine_id machine_info) r1) y
          = extract_sale_data machine_id machine_info y := by simp [gstep, hA]
      rw [gA]
      by_cases hr : transaction_changed r (extract_sale_data machine_id machine_info y) = true
      · have hre : r1 = extract_sale_data machine_id machine_info y := by
          simp [hr1, gstep, hr]
        rw [← hre]
      · have hr' : transaction_changed r (extract_sale_data machine_id machine_info y)
            = false := by
          revert hr; cases transaction_changed r (extract_sale_data machine_id machine_info y)
            <;> simp
        have hr1r : r1 = r := by simp [hr1, gstep, hr']
        have hcc : ∀ c, transaction_changed (extract_sale_data machine_id machine_info y) c
            = transaction_changed r c :=
          fun c => (changed_congr r (extract_sale_data machine_id machine_info y) hr' c).symm
        rcases gstep_fold_dichotomy machine_id machine_info l
            (extract_sale_data machine_id machine_info y) r hcc with heq | ⟨ha, hb⟩
        · rw [heq, hr1r]
        · exfalso
          rw [hr1r, hb] at hA
          rw [hA] at hr'
          cases hr'
    · have hA' : transaction_changed (l.foldl (gstep machine_id machine_info) r1)
          (extract_sale_data machine_id machine_info y) = false := by
        revert hA
        cases transaction_changed (l.foldl (gstep machine_id machine_info) r1)
          (extract_sale_data machine_id machine_info y) <;> simp
      have gA : gstep machine_id machine_info (l.foldl (gstep machine_id machine_info) r1) y
          = l.foldl (gstep machine_id machine_info) r1 := by simp [gstep, hA']
      rw [gA]
      exact ih r1

theorem perId_idem (machine_id : String) (machine_info : MachineInfo)
    (s : Option JObj) (F : List JObj) :
    perId machine_id machine_info (perId machine_id machine_info s F) F
      = perId machine_id machine_info s F := by
  rcases s with _ | r
  · cases F with
    | nil => rfl
    | cons y ys =>
      simp only [perId]
      congr 1
      rw [List.foldl_cons]
      by_cases hc : transaction_changed
          (ys.foldl (gstep machine_id machine_info)
            (extract_sale_data machine_id machine_info y))
          (extract_sale_data machine_id machine_info y) = true
      · have : gstep machine_id machine_info
            (ys.foldl (gstep machine_id machine_info)
              (extract_sale_data machine_id machine_info y)) y
            = extract_sale_data machine_id machine_info y := by simp [gstep, hc]
        rw [this]
      · have hc' : transaction_changed
            (ys.foldl (gstep machine_id machine_info)
              (extract_sale_data machine_id machine_info y))
            (extract_sale_data machine_id machine_info y) = false := by
          revert hc
          cases transaction_changed
            (ys.foldl (gstep machine_id machine_info)
              (extract_sale_data machine_id machine_info y))
            (extract_sale_data machine_id machine_info y) <;> simp
        have : gstep machine_id machine_info
            (ys.foldl (gstep machine_id machine_info)
              (extract_sale_data machine_id machine_info y)) y
            = ys.foldl (gstep machine_id machine_info)
                (extract_sale_data machine_id machine_info y) := by simp [gstep, hc']
        rw [this]
        exact gstep_fold_idem machine_id machine_info ys
          (extract_sale_data machine_id machine_info y)
  · simp only [perId]
    congr 1
    exact gstep_fold_idem machine_id machine_info F r

theorem processSale_history_isSome (machine_id : String) (machine_info : MachineInfo)
    (st : PollState) (sale : JObj) (k : PyKey)
    (h : (alookup st.history k).isSome) :
    (alookup (processSale machine_id machine_info st sale).history k).isSome := by
  rw [alookup_processSale]
  split
  · rcases hex : alookup st.history k with _ | r
    · rw [hex] at h; cases h
    · simp
  · exact h

theorem pollFold_history_isSome (machine_id : String) (machine_info : MachineInfo)
    (sales : List JObj) (st : PollState) (k : PyKey)
    (h : (alookup st.history k).isSome) :
    (alookup ((sales.foldl (processSale machine_id machine_info) st)).history k).isSome := by
  induction sales generalizing st with
  | nil => exact h
  | cons sale sales ih =>
    rw [List.foldl_cons]
    exact ih _ (processSale_history_isSome machine_id machine_info st sale k h)

theorem pollFold_mem_isSome (machine_id : String) (machine_info : MachineInfo)
    (sales : List JObj) (st : PollState) (sale : JObj)
    (hmem : sale ∈ sales) (hq : saleQualifies sale = true) :
    (alookup ((sales.foldl (processSale machine_id machine_info) st)).history
      (skey (txIdOf sale))).isSome := by
  induction sales generalizing st with
  | nil => cases hmem
  | cons s sales ih =>
    rcases List.mem_cons.mp hmem with h | h
    · subst h
      rw [List.foldl_cons]
      apply pollFold_history_isSome
      rw [alookup_processSale, if_pos ⟨hq, rfl⟩]
      rcases hex : alookup st.history (skey (txIdOf sale)) with _ | r <;> simp
    · rw [List.foldl_cons]
      exact ih _ h

theorem pollFold_no_events (machine_id : String) (machine_info : MachineInfo)
    (sales : List JObj) (st : PollState)
    (h : ∀ sale ∈ sales, saleQualifies sale = true →
      (alookup st.history (skey (txIdOf sale))).isSome) :
    (sales.foldl (processSale machine_id machine_info) st).events = st.events ∧
    (sales.foldl (processSale machine_id machine_info) st).history.map Prod.fst
      = st.history.map Prod.fst := by
  induction sales generalizing st with
  | nil => exact ⟨rfl, rfl⟩
  | cons sale sales ih =>
    rw [List.foldl_cons]
    have hstep : (processSale machine_id machine_info st sale).events = st.events ∧
        (processSale machine_id machine_info st sale).history.map Prod.fst
          = st.history.map Prod.fst := by
      by_cases hq : saleQualifies sale = true
      · have hsome := h sale (List.mem_cons_self _ _) hq
        rw [processSale_qual machine_id machine_info st sale hq]
        rcases hex : alookup st.history (skey (txIdOf sale)) with _ | ex
        · rw [hex] at hsome; cases hsome
        · by_cases hc : transaction_changed ex
              (extract_sale_data machine_id machine_info sale) = true
          · refine ⟨by simp [hc], ?_⟩
            simp only [hc, if_true]
            exact keys_upsert_present st.history _ _ (by simp [hex])
          · have hc' : transaction_changed ex
                (extract_sale_data machine_id machine_info sale) = false := by
              revert hc
              cases transaction_changed ex (extract_sale_data machine_id machine_info sale)
                <;> simp
            simp [hc']
      · have hq' : saleQualifies sale = false := by
          revert hq; cases saleQualifies sale <;> simp
        rw [processSale_not_qual machine_id machine_info st sale hq']
        exact ⟨rfl, rfl⟩
    obtain ⟨he, hk⟩ := ih (processSale machine_id machine_info st sale)
      (fun s hs hqs =>
        processSale_history_isSome machine_id machine_info st sale _
          (h s (List.mem_cons_of_mem _ hs) hqs))
    exact ⟨he.trans hstep.1, hk.trans hstep.2⟩

theorem processSale_keys_nodup (machine_id : String) (machine_info : MachineInfo)
    (st : PollState) (sale : JObj)
    (h : (st.history.map Prod.fst).Nodup) :
    ((processSale machine_id machine_info st sale).history.map Prod.fst).Nodup := by
  by_cases hq : saleQualifies sale = true
  · rw [processSale_qual machine_id machine_info st sale hq]
    rcases hex : alookup st.history (skey (txIdOf sale)) with _ | ex
    · have hap : upsert st.history (skey (txIdOf sale))
          (extract_sale_data machine_id machine_info sale)
          = st.history ++ [(skey (txIdOf sale),
              extract_sale_data machine_id machine_info sale)] := by
        unfold upsert
        rw [if_neg (by simp [hex])]
      simp only [hap]
      rw [List.map_append]
      rw [List.nodup_append]
      refine ⟨h, by simp, ?_⟩
      intro a ha hb
      simp at hb
      subst hb
      have := (alookup_isSome_iff st.history (skey (txIdOf sale))).mpr ha
      rw [hex] at this
      cases this
    · by_cases hc : transaction_changed ex
          (extract_sale_data machine_id machine_info sale) = true
      · simp only [hc, if_true]
        rw [keys_upsert_present st.history _ _ (by simp [hex])]
        exact h
      · have hc' : transaction_changed ex
            (extract_sale_data machine_id machine_info sale) = false := by
          revert hc
          cases transaction_changed ex (extract_sale_data machine_id machine_info sale) <;> simp
        simpa [hc'] using h
  · have hq' : saleQualifies sale = false := by
      revert hq; cases saleQualifies sale <;> simp
    rw [processSale_not_qual machine_id machine_info st sale hq']
    exact h

theorem pollFold_keys_nodup (machine_id : String) (machine_info : MachineInfo)
    (sales : List JObj) (st : PollState)
    (h : (st.history.map Prod.fst).Nodup) :
    ((sales.foldl (processSale machine_id machine_info) st).history.map Prod.fst).Nodup := by
  induction sales generalizing st with
  | nil => exact h
  | cons sale sales ih =>
    rw [List.foldl_cons]
    exact ih _ (processSale_keys_nodup machine_id machine_info st sale h)

theorem pyEq_refl (v : JVal) : pyEq v v = true := by
  simp [pyEq]

theorem changed_refl (a : JObj) : transaction_changed a a = false := by
  simp [transaction_changed, pyEq_refl]

/-- The stored record after one per-id update never differs from a fresh
extraction of the same sale. -/
theorem changed_gstep_self (machine_id : String) (machine_info : MachineInfo)
    (r sale : JObj) :
    transaction_changed (gstep machine_id machine_info r sale)
      (extract_sale_data machine_id machine_info sale) = false := by
  unfold gstep
  by_cases hc : transaction_changed r (extract_sale_data machine_id machine_info sale) = true
  · simp [hc, changed_refl]
  · have hc' : transaction_changed r (extract_sale_data machine_id machine_info sale)
        = false := by
      revert hc
      cases transaction_changed r (extract_sale_data machine_id machine_info sale) <;> simp
    simp [hc']

theorem skey_inj (a b : String) (h : skey a = skey b) : a = b := by
  simpa [skey, pyKey] using h

/-- When qualifying sales carry pairwise distinct transaction ids, the
per-id slice of the list at a qualifying sale is that sale alone. -/
theorem filter_eq_singleton (sales : List JObj) (s : JObj) (hs : s ∈ sales)
    (hq : saleQualifies s = true)
    (hdist : sales.Pairwise (fun a b => saleQualifies a = true → saleQualifies b = true →
      txIdOf a ≠ txIdOf b)) :
    sales.filter (fun x => saleQualifies x && decide (skey (txIdOf x) = skey (txIdOf s)))
      = [s] := by
  induction sales with
  | nil => cases hs
  | cons a l ih =>
    obtain ⟨hhead, htail⟩ := List.pairwise_cons.mp hdist
    rcases List.mem_cons.mp hs with h | h
    · subst h
      have hrest : l.filter
            (fun x => saleQualifies x && decide (skey (txIdOf x) = skey (txIdOf s))) = [] := by
        rw [List.filter_eq_nil_iff]
        intro x hx
        by_cases hqx : saleQualifies x = true
        · have hne : txIdOf s ≠ txIdOf x := hhead x hx hq hqx
          have hsk : ¬(skey (txIdOf x) = skey (txIdOf s)) :=
            fun he => hne (skey_inj _ _ he).symm
          simp [hqx, hsk]
        · have hqx' : saleQualifies x = false := by
            revert hqx; cases saleQualifies x <;> simp
          simp [hqx']
      simp [List.filter, hq, hrest]
    · have hcond : (saleQualifies a && decide (skey (txIdOf a) = skey (txIdOf s))) = false := by
        by_cases hqa : saleQualifies a = true
        · have hne : txIdOf a ≠ txIdOf s := hhead s h hqa hq
          have hsk : ¬(skey (txIdOf a) = skey (txIdOf s)) := fun he => hne (skey_inj _ _ he)
          simp [hqa, hsk]
        · have hqa' : saleQualifies a = false := by
            revert hqa; cases saleQualifies a <;> simp
          simp [hqa']
      simpa [List.filter, hcond] using ih h htail

/-- After a first pass over a distinct-id response, reprocessing any sale of
that response is the identity on the poll state: the stored record for its
id already equals what the iteration would write, so neither branch fires. -/
theorem processSale_pass2_id (machine_id : String) (machine_info : MachineInfo)
    (history : Hist) (sales : List JObj)
    (hdist : sales.Pairwise (fun a b => saleQualifies a = true → saleQualifies b = true →
      txIdOf a ≠ txIdOf b))
    (s : JObj) (hs : s ∈ sales) (es : List JObj) :
    processSale machine_id machine_info
        ⟨(poll_machine_sales machine_id machine_info history sales).history, es⟩ s
      = ⟨(poll_machine_sales machine_id machine_info history sales).history, es⟩ := by
  by_cases hq : saleQualifies s = true
  · have hfil := filter_eq_singleton sales s hs hq hdist
    have hlook : alookup (poll_machine_sales machine_id machine_info history sales).history
        (skey (txIdOf s))
        = perId machine_id machine_info (alookup history (skey (txIdOf s))) [s] := by
      have e := alookup_pollFold machine_id machine_info sales ⟨history, []⟩ (skey (txIdOf s))
      rw [hfil] at e
      exact e
    rw [processSale_qual machine_id machine_info _ s hq]
    rcases hh : alookup history (skey (txIdOf s)) with _ | r0
    · rw [hh] at hlook
      simp only [perId, List.foldl_nil] at hlook
      simp [hlook, changed_refl]
    · rw [hh] at hlook
      simp only [perId, List.foldl_cons, List.foldl_nil] at hlook
      simp [hlook, changed_gstep_self]
  · exact processSale_not_qual machine_id machine_info _ s
      (by revert hq; cases saleQualifies s <;> simp)

/-- Every prefix of the second pass leaves the state exactly where the first
pass put it (distinct-id responses). -/
theorem pollFold_pass2_stationary (machine_id : String) (machine_info : MachineInfo)
    (history : Hist) (sales : List JObj)
    (hdist : sales.Pairwise (fun a b => saleQualifies a = true → saleQualifies b = true →
      txIdOf a ≠ txIdOf b)) :
    ∀ p : List JObj, (∀ x ∈ p, x ∈ sales) →
      p.foldl (processSale machine_id machine_info)
        ⟨(poll_machine_sales machine_id machine_info history sales).history, []⟩
      = ⟨(poll_machine_sales machine_id machine_info history sales).history, []⟩ := by
  intro p
  induction p with
  | nil => intro _; rfl
  | cons s p ih =>
    intro hp
    rw [List.foldl_cons,
      processSale_pass2_id machine_id machine_info history sales hdist s
        (hp s (List.mem_cons_self _ _)) []]
    exact ih (fun x hx => hp x (List.mem_cons_of_mem _ hx))

/-- C4: sale ingestion is idempotent — processing the identical sales
response a second time in a successive cycle leaves the machine's
transaction history exactly as it was (same association list, hence no
entry added or modified and the same transaction count) and fires no
event; moreover, when the response's qualifying sales carry pairwise
distinct transaction ids, every prefix of the second pass already leaves
the state untouched, so no entry is ever written during that pass. -/
theorem claim_C4 (machine_id : String) (machine_info : MachineInfo)
    (history : Hist) (sales : List JObj)
    (hnd : (history.map Prod.fst).Nodup) :
    (poll_machine_sales machine_id machine_info
        (poll_machine_sales machine_id machine_info history sales).history sales).history
      = (poll_machine_sales machine_id machine_info history sales).history ∧
    (poll_machine_sales machine_id machine_info
        (poll_machine_sales machine_id machine_info history sales).history sales).history.length
      = (poll_machine_sales machine_id machine_info history sales).history.length ∧
    (poll_machine_sales machine_id machine_info
        (poll_machine_sales machine_id machine_info history sales).history sales).events
      = [] ∧
    (sales.Pairwise (fun a b => saleQualifies a = true → saleQualifies b = true →
        txIdOf a ≠ txIdOf b) →
      ∀ p q, sales = p ++ q →
        p.foldl (processSale machine_id machine_info)
          ⟨(poll_machine_sales machine_id machine_info history sales).history, []⟩
        = ⟨(poll_machine_sales machine_id machine_info history sales).history, []⟩) := by
  set h1 := (poll_machine_sales machine_id machine_info history sales).history with hh1
  have hpres : ∀ sale ∈ sales, saleQualifies sale = true →
      (alookup h1 (skey (txIdOf sale))).isSome := by
    intro sale hs hq
    rw [hh1]
    exact pollFold_mem_isSome machine_id machine_info sales ⟨history, []⟩ sale hs hq
  have hE3 : (poll_machine_sales machine_id machine_info h1 sales).events = [] ∧
      (poll_machine_sales machine_id machine_info h1 sales).history.map Prod.fst
        = h1.map Prod.fst :=
    pollFold_no_events machine_id machine_info sales ⟨h1, []⟩
      (fun sale hs hq => hpres sale hs hq)
  have hnd1 : (h1.map Prod.fst).Nodup := by
    rw [hh1]
    exact pollFold_keys_nodup machine_id machine_info sales ⟨history, []⟩ hnd
  have hpoint : ∀ T,
      alookup (poll_machine_sales machine_id machine_info h1 sales).history T
        = alookup h1 T := by
    intro T
    have e1 : alookup (poll_machine_sales machine_id machine_info h1 sales).history T
        = perId machine_id machine_info (alookup h1 T)
            (sales.filter fun s => saleQualifies s && decide (skey (txIdOf s) = T)) :=
      alookup_pollFold machine_id machine_info sales ⟨h1, []⟩ T
    have e2 : alookup h1 T
        = perId machine_id machine_info (alookup history T)
            (sales.filter fun s => saleQualifies s && decide (skey (txIdOf s) = T)) := by
      rw [hh1]
      exact alookup_pollFold machine_id machine_info sales ⟨history, []⟩ T
    rw [e1, e2]
    exact perId_idem machine_id machine_info (alookup history T) _
  have heq : (poll_machine_sales machine_id machine_info h1 sales).history = h1 := by
    refine assoc_ext _ _ hE3.2 ?_ hpoint
    rw [hE3.2]
    exact hnd1
  refine ⟨heq, by rw [heq], hE3.1, ?_⟩
  intro hdist p q hpq
  exact pollFold_pass2_stationary machine_id machine_info history sales hdist p
    (fun x hx => by rw [hpq]; exact List.mem_append_left _ hx)

/-- Witness for C4 on a concrete sale: repolling the same response leaves
the stored history unchanged and fires nothing. -/
theorem claim_C4_witness :
    (poll_machine_sales "M" ⟨"M", .str "Machine", []⟩
        (poll_machine_sales "M" ⟨"M", .str "Machine", []⟩ []
          [[("TransactionID", .str "T1"), ("amount", .num 3)]]).history
        [[("TransactionID", .str "T1"), ("amount", .num 3)]]).history
      = (poll_machine_sales "M" ⟨"M", .str "Machine", []⟩ []
          [[("TransactionID", .str "T1"), ("amount", .num 3)]]).history ∧
    (poll_machine_sales "M" ⟨"M", .str "Machine", []⟩
        (poll_machine_sales "M" ⟨"M", .str "Machine", []⟩ []
          [[("TransactionID", .str "T1"), ("amount", .num 3)]]).history
        [[("TransactionID", .str "T1"), ("amount", .num 3)]]).history.length
      = (poll_machine_sales "M" ⟨"M", .str "Machine", []⟩ []
          [[("TransactionID", .str "T1"), ("amount", .num 3)]]).history.length ∧
    (poll_machine_sales "M" ⟨"M", .str "Machine", []⟩
        (poll_machine_sales "M" ⟨"M", .str "Machine", []⟩ []
          [[("TransactionID", .str "T1"), ("amount", .num 3)]]).history
        [[("TransactionID", .str "T1"), ("amount", .num 3)]]).events
      = [] ∧
    (([[("TransactionID", JVal.str "T1"), ("amount", JVal.num 3)]] : List JObj).Pairwise
        (fun a b => saleQualifies a = true → saleQualifies b = true →
          txIdOf a ≠ txIdOf b) →
      ∀ p q, ([[("TransactionID", JVal.str "T1"), ("amount", JVal.num 3)]] : List JObj)
          = p ++ q →
        p.foldl (processSale "M" ⟨"M", .str "Machine", []⟩)
          ⟨(poll_machine_sales "M" ⟨"M", .str "Machine", []⟩ []
            [[("TransactionID", .str "T1"), ("amount", .num 3)]]).history, []⟩
        = ⟨(poll_machine_sales "M" ⟨"M", .str "Machine", []⟩ []
            [[("TransactionID", .str "T1"), ("amount", .num 3)]]).history, []⟩) :=
  claim_C4 "M" ⟨"M", .str "Machine", []⟩ []
    [[("TransactionID", .str "T1"), ("amount", .num 3)]] (by simp)

end Nayax
